import Mathlib

/-!
# Verification of the Flip7 game engine

A shallow embedding of the Flip7 card-game engine (`main.py`, `cardGame.py`)
and proofs about its data model, state machine, scoring and probability
estimator.

Modelling conventions:
* Python `Card` objects are embedded as values `{ value, special, owner }`;
  card equality in the source compares `(value, suit)` with `suit` always
  `None`, so all card comparisons here are on `value`.
* Players are referred to by their stable position in the `players` list
  (Python compares players by object identity; the list never changes
  within a game, so identity coincides with position).
* `Deck.takeRandomCard` draws uniformly at random; the draw is embedded as
  a function of an explicit choice index `i`, reduced modulo the deck size
  (any index denotes a valid card of a nonempty deck); drawing from an
  empty deck, which raises in Python, yields `none`.
* Python exceptions raised by `apply_action` are embedded as
  `Except.error`; an `assert` failure inside `_apply_draw` is `none`.
-/

namespace Flip7

/-- A playing card: `value` is the string-encoded number or effect label,
`special` the normal/special tag, `owner` the index of the player who drew
it (if any).  Mirrors `cardGame.Card` (suit is always `None` in this game
and is omitted). -/
structure Card where
  value : String
  special : Bool
  owner : Option Nat := none
deriving DecidableEq, Repr

def FREEZE : String := "Freeze"

def FLIP_THREE : String := "Flip three"

def SECOND_CHANCE : String := "Second chance"

def TIMES_TWO : String := "x2"

/-- `Flip7.EFFECTS = [FREEZE, FLIP_THREE]`. -/
def EFFECTS : List String := [FREEZE, FLIP_THREE]

/-- Membership of a value in a card list, as Python's `"label" in deck`
(`Card.__eq__` compares values). -/
def containsValue (v : String) (l : List Card) : Bool :=
  l.any (fun c => c.value = v)

/-- `deck.count(label)` — number of cards with the given value. -/
def countValue (v : String) (l : List Card) : Nat :=
  (l.filter (fun c => c.value = v)).length

/-- `deck.remove(label)` — remove the first card with the given value
(the source raises if absent; all call sites guarantee presence). -/
def removeValue (v : String) : List Card → List Card
  | [] => []
  | c :: rest => if c.value = v then rest else c :: removeValue v rest

/-- `Deck.getNormalCards` — the non-special cards. -/
def getNormalCards (l : List Card) : List Card :=
  l.filter (fun c => !c.special)

/-- The number cards of `Flip7.newDeck`: for each `i` in `0..12`,
`max(i, 1)` copies of the numeric card `i`, all with `special = False`. -/
def numberCards : List Card :=
  (List.range 13).flatMap
    (fun i => List.replicate (max i 1) { value := toString i, special := false })

/-- The extra cards of `Flip7.newDeck`: 3 Freeze, 3 Flip three,
3 Second chance, one x2 and the five bonus cards, all `special = True`. -/
def specialCards : List Card :=
  List.replicate 3 { value := FREEZE, special := true }
    ++ List.replicate 3 { value := FLIP_THREE, special := true }
    ++ List.replicate 3 { value := SECOND_CHANCE, special := true }
    ++ [{ value := TIMES_TWO, special := true }]
    ++ (List.range' 1 5).map (fun i => { value := "+" ++ toString (2 * i), special := true })

/-- `Flip7.newDeck` — the full deck constructed at the start of a round. -/
def newDeck : List Card := numberCards ++ specialCards

/-- Per-player mutable state of `cardGame.Player` (identity/name and the
strategy reference are engine-irrelevant and omitted; the player's stable
index is its position in `GameState.players`). -/
structure PlayerState where
  hand : List Card
  isDone : Bool
  status : Option String
  score : Int
deriving DecidableEq, Repr

/-- Flow phases of the engine, stored as the strings of the source. -/
def PHASE_FLIP : String := "Flip card"

def PHASE_EFFECT_CHOOSE : String := "Choose effect target"

/-- The state of a `Flip7` game (`Game.__init__` plus the `Flip7`-specific
fields).  `turnPlayer`, `activePlayer` and `pendingEffectOwner` are player
indices; `activePlayer` is optional because `_pending_effect_owner` (a
possible source of assignments to it) is. -/
structure GameState where
  deck : List Card
  players : List PlayerState
  turnPlayer : Nat
  activePlayer : Option Nat
  phase : String
  round : Nat
  effectsToResolve : List Card
  pendingEffect : Option Card
  pendingEffectOwner : Option Nat
  gameOver : Bool
  maxScore : Int
deriving DecidableEq, Repr

/-- Generic action types (`cardGame.ActionType`). -/
inductive ActionType where
  | DRAW | PASS | CHOOSE_PLAYER | PLAY_CARD | RESPOND
deriving DecidableEq, Repr

/-- An action (`cardGame.Action`); players are given by index, the unused
`payload` is omitted. -/
structure Action where
  type : ActionType
  acting_player : Nat
  target_player : Option Nat := none
deriving DecidableEq, Repr

/-- Replace the element at position `n` by `f` of it (out-of-range indices
leave the list unchanged).  Used to mutate one player of `players`. -/
def modifyNth (l : List α) (n : Nat) (f : α → α) : List α :=
  match l, n with
  | [], _ => []
  | a :: t, 0 => f a :: t
  | a :: t, n + 1 => a :: modifyNth t n f

/-- `deck.takeRandomCard()` — remove and return one card.  The random
choice is an explicit index `i`, reduced modulo the deck size; an empty
deck (a crash in the source) gives `none`. -/
def takeCard (deck : List Card) (i : Nat) : Option (Card × List Card) :=
  if h : deck.length = 0 then none
  else
    let j : Fin deck.length := ⟨i % deck.length, Nat.mod_lt _ (Nat.pos_of_ne_zero h)⟩
    some (deck.get j, deck.eraseIdx j)

/-- `Flip7.playerHasMatch` — the hand's non-special cards, compared by
value (Python converts to a `set`, which hashes on the value string),
contain a duplicate. -/
def playerHasMatch (hand : List Card) : Bool :=
  let vals := (getNormalCards hand).map (fun c => c.value)
  vals.length != vals.dedup.length

/-- `Flip7._end_round_for` — mark the player done and purge their queued
effects. -/
def endRoundFor (s : GameState) (p : Nat) : GameState :=
  { s with
    players := modifyNth s.players p (fun pl => { pl with isDone := true }),
    effectsToResolve := s.effectsToResolve.filter (fun c => c.owner ≠ some p) }

/-- `Flip7._start_next_effect_if_any` — pop the next effect and switch to
`PHASE_EFFECT_CHOOSE`, or return to `PHASE_FLIP` when the queue is empty. -/
def startNextEffect (s : GameState) : GameState :=
  match s.effectsToResolve with
  | [] =>
      { s with
        pendingEffect := none, pendingEffectOwner := none,
        phase := PHASE_FLIP, activePlayer := some s.turnPlayer }
  | e :: rest =>
      { s with
        effectsToResolve := rest,
        pendingEffect := some e, pendingEffectOwner := e.owner,
        phase := PHASE_EFFECT_CHOOSE, activePlayer := e.owner }

/-- The tail of `Flip7._apply_draw` after the match block: the 7-unique
check and the effect-card check on the newly drawn card `c`. -/
def drawAftermath (s : GameState) (p : Nat) (c : Card) (threeTurn : Bool) : GameState :=
  let isDone := ((s.players[p]?).map (fun pl => pl.isDone)).getD true
  let normals := ((s.players[p]?).map (fun pl => (getNormalCards pl.hand).length)).getD 0
  if !isDone && normals == 7 then
    endRoundFor s p
  else if !isDone && EFFECTS.contains c.value then
    let s1 := { s with effectsToResolve := s.effectsToResolve ++ [c] }
    if threeTurn then s1 else startNextEffect s1
  else s

/-- `Flip7._apply_draw` — draw one card (choice index `i`), resolve the
match / seven-unique / effect checks.  `none` embeds the entry assertion
`assert not player.isDone`, a bad player index, or an empty deck. -/
def applyDraw (s : GameState) (p : Nat) (i : Nat) (threeTurn : Bool) : Option GameState :=
  match s.players[p]? with
  | none => none
  | some pl =>
    if pl.isDone then none
    else
      match takeCard s.deck i with
      | none => none
      | some (c0, deck2) =>
        let c : Card := { c0 with owner := some p }
        let h1 := pl.hand ++ [c]
        if playerHasMatch h1 then
          if containsValue SECOND_CHANCE h1 then
            let h2 := removeValue c.value (removeValue SECOND_CHANCE h1)
            some (drawAftermath
              { s with deck := deck2, players := s.players.set p { pl with hand := h2 } }
              p c threeTurn)
          else
            some (endRoundFor
              { s with deck := deck2,
                       players := s.players.set p
                         { pl with hand := h1, status := some "Busted" } }
              p)
        else
          some (drawAftermath
            { s with deck := deck2, players := s.players.set p { pl with hand := h1 } }
            p c threeTurn)

/-- Whether player `p` is done (missing players count as done, as any
operation on them would fail). -/
def playerIsDone (s : GameState) (p : Nat) : Bool :=
  ((s.players[p]?).map (fun pl => pl.isDone)).getD true

/-- The body of `Flip7._apply_flip_three_chain`'s loop: up to `fuel` forced
draws against `t`, stopping as soon as `t` is done. -/
def chainSteps (fuel : Nat) (s : GameState) (t : Nat) (choices : List Nat) :
    Option GameState :=
  match fuel with
  | 0 => some s
  | fuel + 1 =>
    match applyDraw s t (choices.headD 0) true with
    | none => none
    | some s1 =>
      if playerIsDone s1 t then some s1
      else chainSteps fuel s1 t choices.tail

/-- `Flip7._apply_flip_three_chain` — three forced draws (effects queued,
not resolved), then resolve the next queued effect. -/
def applyFlipThreeChain (s : GameState) (t : Nat) (choices : List Nat) :
    Option GameState :=
  (chainSteps 3 s t choices).map startNextEffect

/-- `Flip7.apply_action`.  `choices` supplies the random draw indices
consumed by `DRAW` (one) or a flip-three chain (up to three); exceptions
raised by the source become `Except.error`. -/
def applyAction (s : GameState) (a : Action) (choices : List Nat) :
    Except String GameState :=
  if s.phase = PHASE_FLIP then
    match a.type with
    | ActionType.PASS =>
        let s1 := { s with
          players := modifyNth s.players a.acting_player
            (fun pl => { pl with status := some "Passed" }) }
        Except.ok (endRoundFor s1 a.acting_player)
    | ActionType.DRAW =>
        match applyDraw s a.acting_player (choices.headD 0) false with
        | some s' => Except.ok s'
        | none => Except.error "draw failed"
    | _ => Except.error "Illegal action in phase"
  else if s.phase = PHASE_EFFECT_CHOOSE then
    if a.type ≠ ActionType.CHOOSE_PLAYER then
      Except.error "Only CHOOSE_PLAYER is legal in EFFECT_CHOOSE phase"
    else if s.pendingEffect = none ∨ s.pendingEffectOwner = none then
      Except.error "No pending effect to resolve"
    else if s.pendingEffectOwner ≠ some a.acting_player then
      Except.error "Only the pending effect owner may choose a target"
    else
      match a.target_player with
      | none => Except.error "CHOOSE_PLAYER requires target_player"
      | some t =>
        match s.pendingEffect with
        | none => Except.error "No pending effect to resolve"
        | some pe =>
          if pe.value = FREEZE then
            let s1 := { s with
              players := modifyNth s.players t
                (fun pl => { pl with status := some "Frozen" }) }
            Except.ok (startNextEffect (endRoundFor s1 t))
          else if pe.value = FLIP_THREE then
            match applyFlipThreeChain s t choices with
            | some s' => Except.ok s'
            | none => Except.error "draw failed"
          else Except.ok (startNextEffect s)
  else Except.error "Unknown phase"

/-- `Flip7.get_legal_actions`. -/
def get_legal_actions (s : GameState) (p : Nat) : List Action :=
  if s.players.all (fun pl => pl.isDone) then []
  else if playerIsDone s p then []
  else if s.phase = PHASE_FLIP then
    if p ≠ s.turnPlayer then []
    else
      [{ type := ActionType.DRAW, acting_player := p },
       { type := ActionType.PASS, acting_player := p }]
  else if s.phase = PHASE_EFFECT_CHOOSE then
    if s.pendingEffectOwner = none ∨ s.pendingEffectOwner ≠ some p then []
    else
      ((List.range s.players.length).filter (fun t => !playerIsDone s t)).map
        (fun t =>
          { type := ActionType.CHOOSE_PLAYER, acting_player := p,
            target_player := some t })
  else []

/-- `Game.endTurn` — advance `turnPlayer` to the next not-done player. -/
def endTurn (s : GameState) : GameState :=
  if s.players.all (fun pl => pl.isDone) then s
  else
    let n := s.players.length
    match ((List.range n).map (fun k => (s.turnPlayer + k + 1) % n)).find?
        (fun j => !playerIsDone s j) with
    | some j => { s with turnPlayer := j, activePlayer := some j }
    | none => { s with activePlayer := some s.turnPlayer }

/-- The numeric value of a list of decimal digits. -/
def natOfDigits (ds : List Char) : Nat :=
  ds.foldl (fun acc c => acc * 10 + (c.toNat - 48)) 0

/-- Python `int(card)` on the values this game feeds to it: plain decimal
digits, or a `+`-prefixed number for the bonus cards. -/
def intOfValue (v : String) : Int :=
  match v.data with
  | '+' :: rest => (natOfDigits rest : Int)
  | ds => (natOfDigits ds : Int)

/-- Python `"+" in v` — for these one-character needles, membership of the
character in the string. -/
def hasPlus (v : String) : Bool :=
  v.data.contains '+'

/-- The card loop of `Flip7.getPlayerHandScore`, threading the running
score: add the value of every non-special card and every card whose value
contains `+`; double the running total at the x2 card. -/
def scoreLoop : List Card → Int → Int
  | [], score => score
  | c :: rest, score =>
      let s1 := if !c.special || hasPlus c.value then score + intOfValue c.value else score
      let s2 := if c.value = TIMES_TWO then s1 * 2 else s1
      scoreLoop rest s2

/-- `Flip7.getPlayerHandScore` — 0 on a hand with a duplicate, else the
15-point seven-card bonus plus the card loop. -/
def getPlayerHandScore (hand : List Card) : Int :=
  if playerHasMatch hand then 0
  else
    let base : Int := if (getNormalCards hand).length == 7 then 15 else 0
    scoreLoop hand base

/-- `Flip7.updatePlayerScores` — add each player's hand score to their
running score. -/
def updatePlayerScores (s : GameState) : GameState :=
  { s with
    players := s.players.map
      (fun pl => { pl with score := pl.score + getPlayerHandScore pl.hand }) }

/-- `Game.endRound` — fresh deck, reset players, rotate the starting
player, advance the round counter. -/
def endRound (s : GameState) : GameState :=
  let s1 := { s with
    deck := newDeck,
    players := s.players.map
      (fun (pl : PlayerState) =>
        { pl with isDone := false, status := none, hand := ([] : List Card) }) }
  let i := s.round % s.players.length
  { s1 with turnPlayer := i, activePlayer := some i, round := s.round + 1 }

/-- The round-boundary branch of `Flip7.play` (taken when every player is
done): score the hands, start a new round, and test the win threshold.
The returned flag records whether the loop `break`s.  The source here
executes `self.isDone = True` — an attribute never read on `Game` — so no
field of the game state changes at the break; in particular `gameOver` is
not assigned. -/
def roundBoundaryStep (s : GameState) : GameState × Bool :=
  let s1 := updatePlayerScores s
  let s2 := endRound s1
  let s3 := { s2 with phase := PHASE_FLIP, pendingEffect := none, pendingEffectOwner := none }
  if s3.players.any (fun pl => pl.score ≥ s3.maxScore) then (s3, true) else (s3, false)

/-- The initial state of `Flip7.__init__` for `n` players (`maxScore`
defaults to 200, the first round's deck is freshly constructed). -/
def initState (n : Nat) : GameState :=
  { deck := newDeck,
    players := (List.range n).map
      (fun _ => { hand := [], isDone := false, status := none, score := 0 }),
    turnPlayer := 0,
    activePlayer := some 0,
    phase := PHASE_FLIP,
    round := 1,
    effectsToResolve := [],
    pendingEffect := none,
    pendingEffectOwner := none,
    gameOver := false,
    maxScore := 200 }

/-- The number of cards in play: deck size plus the sum of all hand
sizes. -/
def totalCards (s : GameState) : Nat :=
  s.deck.length + (s.players.map (fun pl => pl.hand.length)).sum

/-- The value labels that the deck constructor marks `special = True`. -/
def specialValues : List String :=
  [FREEZE, FLIP_THREE, SECOND_CHANCE, TIMES_TWO, "+2", "+4", "+6", "+8", "+10"]

/-- A card is well formed when its `special` tag agrees with its value
label.  Every card of `newDeck` is well formed, and cards are never
created elsewhere, so every card of a reachable state is well formed. -/
def wfCard (c : Card) : Prop :=
  c.special = true ↔ c.value ∈ specialValues

instance (c : Card) : Decidable (wfCard c) := by
  unfold wfCard; infer_instance

/-- `Flip7.matchProbability` — probability that the next draw is a number
matching a number already in the hand (`hand` below stands for the
source's set of the hand's non-special card values). -/
def matchProbability (hand : List Card) (deck : List Card) : ℚ :=
  if (getNormalCards hand).map (fun c => c.value) = [] ∨ deck.length = 0 then 0
  else
    ((deck.filter (fun c =>
        !c.special &&
          ((getNormalCards hand).map (fun c => c.value)).contains c.value)).length : ℚ)
      / (deck.length : ℚ)

/-- `Flip7.matchByFlipThreeProbability` — probability of drawing a
Flip-Three next and then busting within the three forced draws, under the
source's independence approximation.  (The source's `assert p_getF3 > 0`
always holds in the branch that reaches it.) -/
def matchByFlipThreeProbability (hand : List Card) (deck : List Card) : ℚ :=
  let nrFlipThree := countValue FLIP_THREE deck
  if nrFlipThree = 0 then 0
  else
    let p_getF3 : ℚ := (nrFlipThree : ℚ) / (deck.length : ℚ)
    let deck2 := removeValue FLIP_THREE deck
    let p := matchProbability hand deck2
    let q := 1 - p
    let L := countValue SECOND_CHANCE hand
    let p_match_in_three : ℚ :=
      if L ≥ 3 then 0
      else if L = 0 then 1 - q ^ 3
      else if L = 1 then 3 * p ^ 2 * q + p ^ 3
      else p ^ 3
    p_getF3 * p_match_in_three

/-- The flip-three summand of `Flip7.bustProbability`: included only when
the deck holds a Flip-Three card and exactly one player is still
playing. -/
def flipThreeTerm (hand : List Card) (deck : List Card) (nrStillPlaying : Nat) : ℚ :=
  if containsValue FLIP_THREE deck ∧ nrStillPlaying = 1 then
    matchByFlipThreeProbability hand deck
  else 0

/-- `Flip7.bustProbability` (`nrStillPlaying` abstracts
`self.nrPlayersStillPlaying`). -/
def bustProbability (hand : List Card) (deck : List Card) (nrStillPlaying : Nat) : ℚ :=
  if containsValue SECOND_CHANCE hand then
    if nrStillPlaying ≠ 1 then 0
    else 0 + flipThreeTerm hand deck nrStillPlaying
  else matchProbability hand deck + flipThreeTerm hand deck nrStillPlaying

/-! ## Spec-side definitions

Definitions written from the specification's words, used to compare the
code against the spec's formulas. -/

/-- Spec §4.3: the binomial tail `P(X ≥ L+1)` for `X ~ Binomial(3, p)`:
`L=0 → 1-q³`, `L=1 → 3p²q + p³`, `L=2 → p³`, `L≥3 → 0`. -/
def binomialTail3 (p : ℚ) (L : Nat) : ℚ :=
  if L = 0 then 1 - (1 - p) ^ 3
  else if L = 1 then 3 * p ^ 2 * (1 - p) + p ^ 3
  else if L = 2 then p ^ 3
  else 0

/-- Spec §4.4 scoring rule, additive part: 15 bonus for exactly 7
non-special cards, plus the integer value of every non-special card and
every `+N` bonus card. -/
def specHandScoreAdd (hand : List Card) : Int :=
  (if (getNormalCards hand).length == 7 then 15 else 0) +
    ((hand.filter (fun c => !c.special || hasPlus c.value)).map
      (fun c => intOfValue c.value)).sum

/-- Spec §4.4 scoring rule for a hand with no duplicate: the additive sum,
doubled once if the hand contains the x2 card (the doubling applied after
the complete additive sum). -/
def specHandScore (hand : List Card) : Int :=
  (if containsValue TIMES_TWO hand then 2 else 1) * specHandScoreAdd hand

/-- Spec §4.3 `directMatchProbability`: 0 if the player holds a
Second-Chance card and more than one player is still active; otherwise the
single-draw match probability.  (The code's `bustProbability` instead
zeroes the direct term for every Second-Chance holder.) -/
def directMatchProbabilitySpec (hand : List Card) (deck : List Card)
    (nrStillPlaying : Nat) : ℚ :=
  if containsValue SECOND_CHANCE hand ∧ nrStillPlaying > 1 then 0
  else matchProbability hand deck

/-! ## Auxiliary predicates -/

/-- Whether `applyAction` raised. -/
def errored (r : Except String GameState) : Bool :=
  match r with
  | Except.error _ => true
  | Except.ok _ => false

/-- Whether the draw `applyDraw s p i _` fires the Second-Chance
consumption (the drawn card completes a duplicate and the hand holds a
Second-Chance card). -/
def scConsumed (s : GameState) (p : Nat) (i : Nat) : Bool :=
  match s.players[p]?, takeCard s.deck i with
  | some pl, some (c0, _) =>
      let h1 := pl.hand ++ [{ c0 with owner := some p }]
      playerHasMatch h1 && containsValue SECOND_CHANCE h1
  | _, _ => false

/-- Reachability invariant on the cards of a state: all deck and hand
cards are well formed, and no player still in the round holds a duplicate
non-special value.  It holds initially and is preserved by draws. -/
def InvCards (s : GameState) : Prop :=
  (∀ d ∈ s.deck, wfCard d) ∧
  ∀ pl ∈ s.players, (∀ d ∈ pl.hand, wfCard d) ∧
    (pl.isDone = false → playerHasMatch pl.hand = false)

instance (s : GameState) : Decidable (InvCards s) := by
  unfold InvCards
  infer_instance

/-! ## Concrete cards and states for counterexamples and witnesses -/

/-- The numeric card `n`. -/
def nC (n : Nat) : Card := { value := toString n, special := false }

def scC : Card := { value := SECOND_CHANCE, special := true }

def x2C : Card := { value := TIMES_TWO, special := true }

def f3C : Card := { value := FLIP_THREE, special := true }

def frC : Card := { value := FREEZE, special := true }

/-- A fresh (not done) player with the given hand. -/
def mkPlayer (hand : List Card) : PlayerState :=
  { hand := hand, isDone := false, status := none, score := 0 }

/-- A `PHASE_FLIP` state with the given deck and players
(`turnPlayer = 0`). -/
def mkFlipState (deck : List Card) (players : List PlayerState) : GameState :=
  { deck := deck, players := players, turnPlayer := 0, activePlayer := some 0,
    phase := PHASE_FLIP, round := 1, effectsToResolve := [],
    pendingEffect := none, pendingEffectOwner := none, gameOver := false,
    maxScore := 200 }

/-- The DRAW action of player 0. -/
def drawA : Action := { type := ActionType.DRAW, acting_player := 0 }

/-- C1 counterexample trace: a single player draws a Second-Chance card
(choice 85), then a 3 (choice 4), then the second 3 (choice 4 again),
firing the Second-Chance consumption.  Each `PHASE_FLIP` action is
followed by `endTurn`, as in the driver loop of `Flip7.play`. -/
def c1trace : Except String GameState :=
  (applyAction (initState 1) drawA [85]).bind (fun s1 =>
    (applyAction (endTurn s1) drawA [4]).bind (fun s2 =>
      (applyAction (endTurn s2) drawA [4]).map endTurn))

/-- C2 counterexample state: two fresh players, `PHASE_FLIP`, player 0's
turn. -/
def c2state : GameState := mkFlipState [nC 5] [mkPlayer [], mkPlayer []]

/-- A PASS submitted by player 1, who is not the turn player. -/
def c2action : Action := { type := ActionType.PASS, acting_player := 1 }

/-- The state the engine (incorrectly, per the claim) produces for
`c2action`: player 1 passed and is out of the round. -/
def c2result : GameState :=
  { c2state with
    players := [mkPlayer [],
      { hand := [], isDone := true, status := some "Passed", score := 0 }] }

/-- C2 witness state: `PHASE_EFFECT_CHOOSE` with player 0 owning the
pending Freeze effect. -/
def w2state : GameState :=
  { mkFlipState [] [mkPlayer [], mkPlayer []] with
    phase := PHASE_EFFECT_CHOOSE,
    pendingEffect := some { frC with owner := some 0 },
    pendingEffectOwner := some 0,
    activePlayer := some 0 }

/-- A CHOOSE_PLAYER submitted by player 1, who does not own the pending
effect. -/
def w2action : Action :=
  { type := ActionType.CHOOSE_PLAYER, acting_player := 1, target_player := some 0 }

/-- C3 counterexample state: the whole-game flag `gameOver` is set (as the
display's quit key does), yet the round is mid-flight. -/
def c3state : GameState :=
  { mkFlipState [nC 5] [mkPlayer [], mkPlayer []] with gameOver := true }

/-- C3 witness states: every player done; and only player 0 done. -/
def w3allDone : GameState :=
  mkFlipState [nC 5]
    [{ hand := [], isDone := true, status := some "Passed", score := 0 },
     { hand := [], isDone := true, status := some "Busted", score := 0 }]

def w3oneDone : GameState :=
  mkFlipState [nC 5]
    [{ hand := [], isDone := true, status := some "Passed", score := 0 },
     mkPlayer []]

/-- C4 failing state: every player is done and player 0's cumulative score
has reached `maxScore`. -/
def c4state : GameState :=
  mkFlipState newDeck
    [{ hand := [], isDone := true, status := some "Passed", score := 200 }]

/-- C5 counterexample hand: the x2 card was drawn before the 5, so the
code doubles before adding the 5. -/
def c5hand : List Card := [x2C, nC 5]

/-- C5 witness hands: x2 drawn last; and no x2 at all. -/
def w5hand : List Card := [nC 5, nC 7, x2C]

def w5handNoX2 : List Card := [nC 5, scC, nC 7]

/-- C6 witness state (Second-Chance branch): hand holds a Second Chance
and a 3, the deck's only card is another 3. -/
def w6scState : GameState := mkFlipState [nC 3] [mkPlayer [scC, nC 3]]

/-- C6 witness state (bust branch): hand holds a 3 and no Second Chance,
with a queued effect owned by player 0 that the bust must purge. -/
def w6bustState : GameState :=
  { mkFlipState [nC 3] [mkPlayer [nC 3]] with
    effectsToResolve := [{ f3C with owner := some 0 }] }

/-- C7 witness state: one fresh player, a two-card deck. -/
def w7state : GameState := mkFlipState [nC 5, nC 6] [mkPlayer []]

/-- C7 witness state with a nonempty effect queue. -/
def w7queueState : GameState :=
  { mkFlipState [nC 5] [mkPlayer [], mkPlayer []] with
    effectsToResolve := [{ frC with owner := some 1 }] }

/-- C9 counterexample: the hand holds a Second Chance and a 5, the deck is
a single 5, one player still playing.  The code returns 0 while the spec's
`directMatchProbability` decomposition gives 1. -/
def c9hand : List Card := [scC, nC 5]

def c9deck : List Card := [nC 5]

/-- C9 witness inputs: no Second Chance, a deck with a Flip Three. -/
def w9hand : List Card := [nC 5]

def w9deck : List Card := [nC 5, f3C, nC 7]

/-- C8 witness inputs: a deck with one Flip Three and a matching 5, and a
deck with no Flip Three. -/
def w8hand : List Card := [nC 5, scC]

def w8deck : List Card := [f3C, nC 5, nC 7]

def w8deckNoF3 : List Card := [nC 5, nC 7]

/-- C1 witness state: a draw that fires the Second-Chance consumption. -/
def w1state : GameState := mkFlipState [nC 3] [mkPlayer [scC, nC 3]]

/-- The state `w1state` reaches after that draw. -/
def w1result : GameState := (applyDraw w1state 0 0 false).getD w1state

/-- The state `w1state` reaches after a DRAW action from player 0. -/
def w1actionResult : GameState :=
  match applyAction w1state drawA [0] with
  | Except.ok s => s
  | Except.error _ => w1state

/-! ## General lemmas -/

/-- `playerHasMatch` is the complement of value-distinctness of the
non-special cards (Python's `len(l) != len(set(l))`). -/
theorem playerHasMatch_eq_false_iff (hand : List Card) :
    playerHasMatch hand = false ↔
      ((getNormalCards hand).map (fun c => c.value)).Nodup := by
  unfold playerHasMatch
  rw [bne_eq_false_iff_eq]
  constructor
  · intro h
    have hsub := List.dedup_sublist ((getNormalCards hand).map (fun c => c.value))
    have := hsub.eq_of_length h.symm
    rw [← this]
    exact List.nodup_dedup _
  · intro h
    rw [List.dedup_eq_self.mpr h]

/-! ## C10: deck composition -/

/-- **C10 counterexample**: a fresh deck has 94 cards, not 78 as
claimed. -/
theorem newDeck_size_cex : newDeck.length = 94 ∧ ¬ newDeck.length = 78 := by
  decide

/-- **C10** (amended): `Flip7.newDeck` has exactly 94 cards — for each
value `i` in `0..12`, `max(i,1)` copies of the numeric card `i` (79 cards,
all `special = False`), plus 3 Freeze, 3 Flip three, 3 Second chance, one
x2 and one each of +2, +4, +6, +8, +10 (15 cards, all `special = True`). -/
theorem newDeck_composition :
    newDeck.length = 94 ∧
    (getNormalCards newDeck).length = 79 ∧
    (newDeck.filter (fun c => c.special)).length = 15 ∧
    ((List.range 13).all
      (fun i => countValue (toString i) newDeck == max i 1)) = true ∧
    countValue FREEZE newDeck = 3 ∧
    countValue FLIP_THREE newDeck = 3 ∧
    countValue SECOND_CHANCE newDeck = 3 ∧
    countValue TIMES_TWO newDeck = 1 ∧
    (["+2", "+4", "+6", "+8", "+10"].all
      (fun v => countValue v newDeck == 1)) = true ∧
    (newDeck.all (fun c => decide (wfCard c))) = true := by
  decide

/-! ## C4: the terminal flag -/

/-- **C4**: the round-boundary step of `Flip7.play` never assigns
`gameOver`; at the failing state `c4state` (all players done, a score at
`maxScore`) the loop does break out, but `gameOver` is left `False` —
the source executes `self.isDone = True`, a dead write, where its loop
guard `while not self.gameOver` shows `self.gameOver = True` was
intended. -/
theorem play_gameOver_never_set :
    (∀ s : GameState, ((roundBoundaryStep s).1).gameOver = s.gameOver) ∧
    (roundBoundaryStep c4state).2 = true ∧
    ((roundBoundaryStep c4state).1).gameOver = false := by
  refine ⟨?_, by decide, by decide⟩
  intro s
  show (if _ then _ else _ : GameState × Bool).1.gameOver = s.gameOver
  split <;> rfl

/-! ## C3: legal actions and the end of the game -/

/-- **C3 counterexample**: in a state whose whole-game flag `gameOver` is
set (as the display's quit key produces) but whose round is mid-flight,
`get_legal_actions` still offers DRAW and PASS to the turn player —
the function never consults `gameOver`. -/
theorem get_legal_actions_gameOver_cex :
    c3state.gameOver = true ∧ get_legal_actions c3state 0 ≠ [] := by
  refine ⟨rfl, by decide⟩

/-- **C3** (amended): `get_legal_actions(p)` returns the empty list
whenever every player is done, or `p.isDone` is true.  It does not consult
the whole-game flag `gameOver`. -/
theorem get_legal_actions_empty (s : GameState) (p : Nat) :
    (s.players.all (fun pl => pl.isDone) = true → get_legal_actions s p = []) ∧
    (playerIsDone s p = true → get_legal_actions s p = []) := by
  constructor
  · intro h
    unfold get_legal_actions
    rw [if_pos h]
  · intro h
    unfold get_legal_actions
    by_cases hall : s.players.all (fun pl => pl.isDone) = true
    · rw [if_pos hall]
    · rw [if_neg hall, if_pos h]

/-- Witness for `get_legal_actions_empty`. -/
theorem get_legal_actions_empty_witness :
    (w3allDone.players.all (fun pl => pl.isDone) = true ∧
      get_legal_actions w3allDone 1 = []) ∧
    (playerIsDone w3oneDone 0 = true ∧ get_legal_actions w3oneDone 0 = []) :=
  ⟨⟨by decide, (get_legal_actions_empty w3allDone 1).1 (by decide)⟩,
   ⟨by decide, (get_legal_actions_empty w3oneDone 0).2 (by decide)⟩⟩

/-! ## C2: actor authorization -/

/-- **C2 counterexample**: in `PHASE_FLIP` a PASS submitted by a player
who is not the turn player is applied without any error — `apply_action`
performs no authorization check in this phase, so the claim's
"UnauthorizedActor raises and does not mutate" fails. -/
theorem applyAction_flip_no_auth_cex :
    c2state.turnPlayer ≠ c2action.acting_player ∧
    applyAction c2state c2action [] = Except.ok c2result ∧
    c2result ≠ c2state := by
  refine ⟨by decide, rfl, by decide⟩

/-- **C2** (amended): only `PHASE_EFFECT_CHOOSE` enforces the acting
player — an action submitted there by anyone other than
`pendingEffectOwner` makes `apply_action` raise (the embedding returns
`Except.error` before any state is produced, as the source raises before
any mutation).  In `PHASE_FLIP`, DRAW and PASS are applied for any acting
player without an authorization check. -/
theorem applyAction_unauthorized_effect_owner (s : GameState) (a : Action)
    (cs : List Nat) (hph : s.phase = PHASE_EFFECT_CHOOSE)
    (how : s.pendingEffectOwner ≠ some a.acting_player) :
    errored (applyAction s a cs) = true := by
  unfold applyAction
  have h1 : ¬ s.phase = PHASE_FLIP := by rw [hph]; decide
  rw [if_neg h1, if_pos hph]
  by_cases ht : a.type = ActionType.CHOOSE_PLAYER
  · rw [if_neg (by simp [ht])]
    by_cases hpe : s.pendingEffect = none ∨ s.pendingEffectOwner = none
    · rw [if_pos hpe]; rfl
    · rw [if_neg hpe, if_pos how]; rfl
  · rw [if_pos ht]; rfl

/-- Witness for `applyAction_unauthorized_effect_owner`. -/
theorem applyAction_unauthorized_witness :
    errored (applyAction w2state w2action []) = true :=
  applyAction_unauthorized_effect_owner w2state w2action [] rfl (by decide)

/-! ## C5: the scoring rule -/

theorem scoreLoop_append (l1 l2 : List Card) (s : Int) :
    scoreLoop (l1 ++ l2) s = scoreLoop l2 (scoreLoop l1 s) := by
  induction l1 generalizing s with
  | nil => rfl
  | cons c t ih => simp only [List.cons_append, scoreLoop]; exact ih _

/-- On a segment without the x2 card, the score loop adds the values of
the contributing cards. -/
theorem scoreLoop_no_x2 (l : List Card) (s : Int)
    (h : containsValue TIMES_TWO l = false) :
    scoreLoop l s =
      s + ((l.filter (fun c => !c.special || hasPlus c.value)).map
        (fun c => intOfValue c.value)).sum := by
  induction l generalizing s with
  | nil => simp [scoreLoop]
  | cons c t ih =>
    rw [containsValue, List.any_cons, Bool.or_eq_false_iff] at h
    obtain ⟨hc, ht⟩ := h
    have hcv : ¬ c.value = TIMES_TWO := by simpa using hc
    rw [scoreLoop]
    simp only [if_neg hcv]
    by_cases hcontrib : (!c.special || hasPlus c.value) = true
    · rw [if_pos hcontrib, ih _ ht]
      simp only [List.filter_cons, hcontrib, if_true, List.map_cons, List.sum_cons]
      ring
    · have hf : (!c.special || hasPlus c.value) = false := by
        simpa using hcontrib
      rw [if_neg hcontrib, ih _ ht]
      simp only [List.filter_cons, hf, Bool.false_eq_true, if_false]

/-- **C5 counterexample**: for the hand `[x2, 5]` (no duplicate), the code
scores 5 — the doubling happened at the x2 card's position, before the 5
was added — while the claimed formula (double after the complete additive
sum) gives 10. -/
theorem getPlayerHandScore_order_cex :
    playerHasMatch c5hand = false ∧
    getPlayerHandScore c5hand = 5 ∧
    specHandScore c5hand = 10 ∧
    ¬ getPlayerHandScore c5hand = specHandScore c5hand := by
  refine ⟨by decide, by decide, by decide, by decide⟩

/-- **C5** (amended): for a hand with no duplicate non-special values the
score is: 15 if the hand has exactly 7 non-special cards else 0, plus the
integer value of every non-special card and every `+N` bonus card, doubled
once if the hand contains the x2 card — *provided* the x2 card is the last
card drawn into the hand (in particular, whenever the hand has no x2
card).  In general the code doubles the running total at the x2 card's
position, so cards drawn after it are not doubled. -/
theorem getPlayerHandScore_spec (hand : List Card)
    (hnm : playerHasMatch hand = false)
    (hx2 : containsValue TIMES_TWO hand = false ∨
      ∃ h c, hand = h ++ [c] ∧ c.value = TIMES_TWO ∧ c.special = true ∧
        containsValue TIMES_TWO h = false) :
    getPlayerHandScore hand = specHandScore hand := by
  unfold getPlayerHandScore specHandScore specHandScoreAdd
  rw [hnm]
  simp only [Bool.false_eq_true, if_false]
  rcases hx2 with hno | ⟨h, c, rfl, hcv, hcs, hno⟩
  · rw [hno, scoreLoop_no_x2 _ _ hno]
    simp only [if_false, Bool.false_eq_true]
    ring
  · have hcontains : containsValue TIMES_TWO (h ++ [c]) = true := by
      unfold containsValue
      rw [List.any_append]
      simp [hcv]
    rw [hcontains, scoreLoop_append, scoreLoop_no_x2 _ _ hno]
    simp only [if_true]
    rw [scoreLoop]
    have hnocontrib : ¬ (!c.special || hasPlus c.value) = true := by
      rw [hcs, hcv]
      decide
    rw [if_neg hnocontrib, if_pos hcv, scoreLoop]
    have hfc : (!c.special || hasPlus c.value) = false := by
      simpa using hnocontrib
    have hfilter :
        (h ++ [c]).filter (fun c => !c.special || hasPlus c.value) =
          h.filter (fun c => !c.special || hasPlus c.value) := by
      rw [List.filter_append]
      simp [List.filter_cons, hfc]
    have hnorm : getNormalCards (h ++ [c]) = getNormalCards h := by
      unfold getNormalCards
      rw [List.filter_append]
      simp [List.filter_cons, hcs]
    rw [hfilter, hnorm]
    ring

/-- Witness for `getPlayerHandScore_spec`: a hand with x2 drawn last, and
one with no x2. -/
theorem getPlayerHandScore_spec_witness :
    getPlayerHandScore w5hand = specHandScore w5hand ∧
    getPlayerHandScore w5handNoX2 = specHandScore w5handNoX2 :=
  ⟨getPlayerHandScore_spec w5hand (by decide)
      (Or.inr ⟨[nC 5, nC 7], x2C, rfl, rfl, rfl, by decide⟩),
   getPlayerHandScore_spec w5handNoX2 (by decide) (Or.inl (by decide))⟩

/-! ## C8: the flip-three bust probability formula -/

/-- **C8**: `matchByFlipThreeProbability` returns exactly 0 whenever the
deck contains no Flip-Three card; otherwise it returns
`p_getF3 × p_match_in_three` where `p_getF3` is the deck's Flip-Three
count over the deck size and `p_match_in_three` is the spec's binomial
tail at `p = ` the single-draw match probability on the deck with one
Flip-Three removed and `L = ` the hand's Second-Chance count. -/
theorem matchByFlipThreeProbability_spec (hand deck : List Card) :
    (countValue FLIP_THREE deck = 0 → matchByFlipThreeProbability hand deck = 0) ∧
    (countValue FLIP_THREE deck ≠ 0 →
      matchByFlipThreeProbability hand deck =
        ((countValue FLIP_THREE deck : ℚ) / (deck.length : ℚ)) *
          binomialTail3 (matchProbability hand (removeValue FLIP_THREE deck))
            (countValue SECOND_CHANCE hand)) := by
  constructor
  · intro h
    unfold matchByFlipThreeProbability
    rw [if_pos h]
  · intro h
    unfold matchByFlipThreeProbability binomialTail3
    rw [if_neg h]
    rcases hL : countValue SECOND_CHANCE hand with _ | _ | _ | n <;>
      simp only [hL] <;> norm_num
    rw [if_neg (by omega)]

/-- Witness for `matchByFlipThreeProbability_spec`: a deck with no
Flip-Three, and one with a Flip-Three (nonzero hand match). -/
theorem matchByFlipThreeProbability_spec_witness :
    matchByFlipThreeProbability w8hand w8deckNoF3 = 0 ∧
    matchByFlipThreeProbability w8hand w8deck =
      ((countValue FLIP_THREE w8deck : ℚ) / (w8deck.length : ℚ)) *
        binomialTail3 (matchProbability w8hand (removeValue FLIP_THREE w8deck))
          (countValue SECOND_CHANCE w8hand) :=
  ⟨(matchByFlipThreeProbability_spec w8hand w8deckNoF3).1 (by decide),
   (matchByFlipThreeProbability_spec w8hand w8deck).2 (by decide)⟩

/-! ## C9: bust probability bounds and decomposition -/

theorem matchProbability_nonneg (hand deck : List Card) :
    0 ≤ matchProbability hand deck := by
  unfold matchProbability
  split
  · exact le_refl 0
  · exact div_nonneg (Nat.cast_nonneg _) (Nat.cast_nonneg _)

theorem matchProbability_le_one (hand deck : List Card) :
    matchProbability hand deck ≤ 1 := by
  unfold matchProbability
  split
  · exact zero_le_one
  · rename_i h
    rw [not_or] at h
    have hn : (0 : ℚ) < (deck.length : ℚ) := by
      have h2 : 0 < deck.length := Nat.pos_of_ne_zero h.2
      exact_mod_cast h2
    rw [div_le_one hn]
    exact_mod_cast List.length_filter_le _ _

/-- Two pointwise-incompatible filters select at most the whole list. -/
theorem length_filter_add_length_filter_le (l : List Card) (P Q : Card → Bool)
    (h : ∀ c ∈ l, ¬ (P c = true ∧ Q c = true)) :
    (l.filter P).length + (l.filter Q).length ≤ l.length := by
  induction l with
  | nil => simp
  | cons c t ih =>
    have ht : ∀ d ∈ t, ¬ (P d = true ∧ Q d = true) := by
      intro d hd
      exact h d (List.mem_cons_of_mem _ hd)
    have hih := ih ht
    have hc := h c (List.mem_cons_self _ _)
    rw [List.filter_cons, List.filter_cons]
    by_cases hP : P c = true
    · have hQ : ¬ Q c = true := fun hq => hc ⟨hP, hq⟩
      rw [if_pos hP, if_neg hQ]
      simp only [List.length_cons]
      omega
    · rw [if_neg hP]
      by_cases hQ : Q c = true
      · rw [if_pos hQ]
        simp only [List.length_cons]
        omega
      · rw [if_neg hQ]
        simp only [List.length_cons]
        omega

/-- `matchByFlipThreeProbability` is nonnegative and at most the
probability of drawing a Flip-Three at all. -/
theorem matchByFlipThreeProbability_bounds (hand deck : List Card) :
    0 ≤ matchByFlipThreeProbability hand deck ∧
    matchByFlipThreeProbability hand deck ≤
      (countValue FLIP_THREE deck : ℚ) / (deck.length : ℚ) := by
  unfold matchByFlipThreeProbability
  by_cases h : countValue FLIP_THREE deck = 0
  · rw [if_pos h, h]
    norm_num
  · rw [if_neg h]
    have hp0 := matchProbability_nonneg hand (removeValue FLIP_THREE deck)
    have hp1 := matchProbability_le_one hand (removeValue FLIP_THREE deck)
    set p := matchProbability hand (removeValue FLIP_THREE deck) with hp
    have hf0 : (0 : ℚ) ≤ (countValue FLIP_THREE deck : ℚ) / (deck.length : ℚ) :=
      div_nonneg (Nat.cast_nonneg _) (Nat.cast_nonneg _)
    have htail :
        0 ≤ (if countValue SECOND_CHANCE hand ≥ 3 then (0 : ℚ)
             else if countValue SECOND_CHANCE hand = 0 then 1 - (1 - p) ^ 3
             else if countValue SECOND_CHANCE hand = 1 then
               3 * p ^ 2 * (1 - p) + p ^ 3
             else p ^ 3) ∧
        (if countValue SECOND_CHANCE hand ≥ 3 then (0 : ℚ)
         else if countValue SECOND_CHANCE hand = 0 then 1 - (1 - p) ^ 3
         else if countValue SECOND_CHANCE hand = 1 then
           3 * p ^ 2 * (1 - p) + p ^ 3
         else p ^ 3) ≤ 1 := by
      split
      · norm_num
      · split
        · constructor
          · have : (1 - p) ^ 3 ≤ 1 := by
              apply pow_le_one₀ <;> nlinarith
            nlinarith
          · have : 0 ≤ (1 - p) ^ 3 := pow_nonneg (by linarith) 3
            nlinarith
        · split
          · constructor
            · nlinarith [sq_nonneg p, sq_nonneg (1 - p)]
            · nlinarith [sq_nonneg (1 - p), sq_nonneg p, mul_nonneg (mul_nonneg hp0 hp0) hp0]
          · constructor
            · positivity
            · apply pow_le_one₀ hp0 hp1
    constructor
    · exact mul_nonneg hf0 htail.1
    · exact mul_le_of_le_one_right hf0 htail.2

/-- **C9 counterexample**: the reachable input `hand = [Second chance, 5]`,
`deck = [5]`, one player still active.  The code returns 0 (it zeroes the
direct term for every Second-Chance holder), while the spec's
`directMatchProbability` (zero only when more than one player is active)
plus the flip-three term gives 1. -/
theorem bustProbability_decomposition_cex :
    bustProbability c9hand c9deck 1 = 0 ∧
    directMatchProbabilitySpec c9hand c9deck 1 + flipThreeTerm c9hand c9deck 1 = 1 := by
  have hsc : containsValue SECOND_CHANCE c9hand = true := by decide
  have hft : flipThreeTerm c9hand c9deck 1 = 0 := by
    unfold flipThreeTerm
    rw [if_neg]
    intro hcontr
    exact absurd hcontr.1 (by decide)
  constructor
  · unfold bustProbability
    rw [if_pos hsc, if_neg (by omega), hft]
    norm_num
  · have hmp : matchProbability c9hand c9deck = 1 := by
      unfold matchProbability
      rw [if_neg (by decide)]
      have h1 : (c9deck.filter (fun c =>
          !c.special && ((getNormalCards c9hand).map
            (fun c => c.value)).contains c.value)).length = 1 := by decide
      have h2 : c9deck.length = 1 := by decide
      rw [h1, h2]
      norm_num
    unfold directMatchProbabilitySpec
    rw [if_neg (fun h => absurd h.2 (by omega)), hmp, hft]
    norm_num

/-- **C9** (amended): for every hand, deck and active-player count, with
the deck well formed in that no non-special card carries the Flip-Three
label (true of every reachable deck), `bustProbability` lies in `[0, 1]`,
and it decomposes as a direct term plus the flip-three term — where the
direct term is the single-draw match probability for a hand without a
Second-Chance card and 0 for any Second-Chance holder (not only, as the
spec's `directMatchProbability` has it, when more than one player is
active), and the flip-three term is 0 unless exactly one player is still
active and the deck contains a Flip-Three card. -/
theorem bustProbability_spec (hand deck : List Card) (nr : Nat)
    (hwf : ∀ c ∈ deck, c.special = false → ¬ c.value = FLIP_THREE) :
    (0 ≤ bustProbability hand deck nr ∧ bustProbability hand deck nr ≤ 1) ∧
    bustProbability hand deck nr =
      (if containsValue SECOND_CHANCE hand then 0 else matchProbability hand deck)
        + flipThreeTerm hand deck nr := by
  have hdecomp : bustProbability hand deck nr =
      (if containsValue SECOND_CHANCE hand then 0 else matchProbability hand deck)
        + flipThreeTerm hand deck nr := by
    unfold bustProbability
    by_cases hsc : containsValue SECOND_CHANCE hand = true
    · rw [if_pos hsc, if_pos hsc]
      by_cases hn : nr ≠ 1
      · rw [if_pos hn]
        unfold flipThreeTerm
        rw [if_neg (by tauto)]
        norm_num
      · rw [if_neg hn]
    · rw [if_neg hsc, if_neg hsc]
  have hdir0 : 0 ≤ (if containsValue SECOND_CHANCE hand then (0 : ℚ)
      else matchProbability hand deck) := by
    split
    · exact le_refl 0
    · exact matchProbability_nonneg hand deck
  have hdir1 : (if containsValue SECOND_CHANCE hand then (0 : ℚ)
      else matchProbability hand deck) ≤ 1 := by
    split
    · exact zero_le_one
    · exact matchProbability_le_one hand deck
  refine ⟨⟨?_, ?_⟩, hdecomp⟩
  · rw [hdecomp]
    have h1 : 0 ≤ flipThreeTerm hand deck nr := by
      unfold flipThreeTerm
      split
      · exact (matchByFlipThreeProbability_bounds hand deck).1
      · exact le_refl 0
    linarith
  · rw [hdecomp]
    unfold flipThreeTerm
    by_cases hcond : containsValue FLIP_THREE deck = true ∧ nr = 1
    · rw [if_pos hcond]
      obtain ⟨hf3, -⟩ := hcond
      have hne : deck ≠ [] := by
        intro hnil
        rw [hnil] at hf3
        exact absurd hf3 (by decide)
      have hnpos : 0 < deck.length := List.length_pos.mpr hne
      have hnq : (0 : ℚ) < (deck.length : ℚ) := by exact_mod_cast hnpos
      have hmb := (matchByFlipThreeProbability_bounds hand deck).2
      have hdisj : (deck.filter (fun c =>
            !c.special && ((getNormalCards hand).map (fun c => c.value)).contains
              c.value)).length
          + (deck.filter (fun c => c.value = FLIP_THREE)).length ≤ deck.length := by
        apply length_filter_add_length_filter_le
        intro c hc hb
        obtain ⟨hP, hQ⟩ := hb
        rw [Bool.and_eq_true] at hP
        have hcs : c.special = false := by
          cases hsp : c.special
          · rfl
          · rw [hsp] at hP
            exact absurd hP.1 (by decide)
        exact hwf c hc hcs (by simpa using hQ)
      have hdirect : (if containsValue SECOND_CHANCE hand then (0 : ℚ)
            else matchProbability hand deck) ≤
          ((deck.filter (fun c =>
            !c.special && ((getNormalCards hand).map (fun c => c.value)).contains
              c.value)).length : ℚ) / (deck.length : ℚ) := by
        have hmp : matchProbability hand deck ≤
            ((deck.filter (fun c =>
              !c.special && ((getNormalCards hand).map (fun c => c.value)).contains
                c.value)).length : ℚ) / (deck.length : ℚ) := by
          unfold matchProbability
          split
          · exact div_nonneg (Nat.cast_nonneg _) (Nat.cast_nonneg _)
          · exact le_refl _
        split
        · exact div_nonneg (Nat.cast_nonneg _) (Nat.cast_nonneg _)
        · exact hmp
      have hsum : ((deck.filter (fun c =>
            !c.special && ((getNormalCards hand).map (fun c => c.value)).contains
              c.value)).length : ℚ) / (deck.length : ℚ)
          + ((deck.filter (fun c => c.value = FLIP_THREE)).length : ℚ)
            / (deck.length : ℚ) ≤ 1 := by
        rw [div_add_div_same, div_le_one hnq]
        exact_mod_cast hdisj
      have hflip : matchByFlipThreeProbability hand deck ≤
          ((deck.filter (fun c => c.value = FLIP_THREE)).length : ℚ)
            / (deck.length : ℚ) := hmb
      linarith
    · rw [if_neg hcond]
      linarith

/-- Witness for `bustProbability_spec`. -/
theorem bustProbability_spec_witness :
    (0 ≤ bustProbability w9hand w9deck 1 ∧ bustProbability w9hand w9deck 1 ≤ 1) ∧
    bustProbability w9hand w9deck 1 =
      (if containsValue SECOND_CHANCE w9hand then 0
        else matchProbability w9hand w9deck) + flipThreeTerm w9hand w9deck 1 :=
  bustProbability_spec w9hand w9deck 1 (by decide)

/-! ## Lemmas on the card-list operations -/

theorem containsValue_iff (v : String) (l : List Card) :
    containsValue v l = true ↔ ∃ c ∈ l, c.value = v := by
  unfold containsValue
  simp [List.any_eq_true]

theorem containsValue_append (v : String) (l1 l2 : List Card) :
    containsValue v (l1 ++ l2) = (containsValue v l1 || containsValue v l2) := by
  unfold containsValue
  exact List.any_append

theorem removeValue_length (v : String) (l : List Card)
    (h : containsValue v l = true) :
    (removeValue v l).length + 1 = l.length := by
  induction l with
  | nil => simp [containsValue] at h
  | cons c t ih =>
    rw [removeValue]
    by_cases hv : c.value = v
    · rw [if_pos hv]
      rfl
    · rw [containsValue, List.any_cons, Bool.or_eq_true] at h
      rcases h with h | h
      · exact absurd (of_decide_eq_true h) hv
      · rw [if_neg hv, List.length_cons, List.length_cons, ih h]

theorem mem_of_mem_removeValue {d : Card} {v : String} {l : List Card}
    (h : d ∈ removeValue v l) : d ∈ l := by
  induction l with
  | nil => exact absurd h (by simp [removeValue])
  | cons c t ih =>
    rw [removeValue] at h
    by_cases hv : c.value = v
    · rw [if_pos hv] at h
      exact List.mem_cons_of_mem _ h
    · rw [if_neg hv] at h
      rcases List.mem_cons.mp h with h | h
      · exact h ▸ List.mem_cons_self _ _
      · exact List.mem_cons_of_mem _ (ih h)

theorem mem_removeValue_of_ne {d : Card} {v : String} {l : List Card}
    (hd : d ∈ l) (hne : ¬ d.value = v) : d ∈ removeValue v l := by
  induction l with
  | nil => exact absurd hd (List.not_mem_nil d)
  | cons c t ih =>
    rw [removeValue]
    rcases List.mem_cons.mp hd with h | h
    · subst h
      rw [if_neg hne]
      exact List.mem_cons_self _ _
    · by_cases hv : c.value = v
      · rw [if_pos hv]
        exact h
      · rw [if_neg hv]
        exact List.mem_cons_of_mem _ (ih h)

theorem getNormalCards_append (l1 l2 : List Card) :
    getNormalCards (l1 ++ l2) = getNormalCards l1 ++ getNormalCards l2 :=
  List.filter_append _ _

/-- Removing a card whose value only occurs on special cards leaves the
normal cards unchanged. -/
theorem getNormalCards_removeValue_special {v : String} {l : List Card}
    (hall : ∀ d ∈ l, d.value = v → d.special = true) :
    getNormalCards (removeValue v l) = getNormalCards l := by
  induction l with
  | nil => rfl
  | cons c t ih =>
    have ht : ∀ d ∈ t, d.value = v → d.special = true :=
      fun d hd => hall d (List.mem_cons_of_mem _ hd)
    rw [removeValue]
    by_cases hv : c.value = v
    · rw [if_pos hv]
      have hsp := hall c (List.mem_cons_self _ _) hv
      unfold getNormalCards
      rw [List.filter_cons, if_neg (by simp [hsp])]
    · rw [if_neg hv]
      unfold getNormalCards at ih ⊢
      rw [List.filter_cons, List.filter_cons]
      split
      · rw [ih ht]
      · exact ih ht

/-- Removing a card whose value only occurs on normal cards removes
exactly one normal card. -/
theorem getNormalCards_removeValue_normal {v : String} {l : List Card}
    (hall : ∀ d ∈ l, d.value = v → d.special = false)
    (hc : containsValue v l = true) :
    (getNormalCards (removeValue v l)).length + 1 = (getNormalCards l).length := by
  induction l with
  | nil => simp [containsValue] at hc
  | cons c t ih =>
    have ht : ∀ d ∈ t, d.value = v → d.special = false :=
      fun d hd => hall d (List.mem_cons_of_mem _ hd)
    rw [removeValue]
    by_cases hv : c.value = v
    · rw [if_pos hv]
      have hsp := hall c (List.mem_cons_self _ _) hv
      unfold getNormalCards
      rw [List.filter_cons, if_pos (by simp [hsp])]
      rfl
    · rw [containsValue, List.any_cons, Bool.or_eq_true] at hc
      rcases hc with hc | hc
      · exact absurd (of_decide_eq_true hc) hv
      · rw [if_neg hv]
        unfold getNormalCards at ih ⊢
        rw [List.filter_cons, List.filter_cons]
        split
        · rw [List.length_cons, List.length_cons, ih ht hc]
        · exact ih ht hc

theorem playerHasMatch_eq_true_iff (hand : List Card) :
    playerHasMatch hand = true ↔
      ¬ ((getNormalCards hand).map (fun c => c.value)).Nodup := by
  rw [← playerHasMatch_eq_false_iff]
  cases h : playerHasMatch hand <;> simp

/-- Appending a normal card whose value the hand already holds creates a
match. -/
theorem playerHasMatch_append {hand : List Card} {c : Card}
    (hcs : c.special = false)
    (hmem : c.value ∈ (getNormalCards hand).map (fun d => d.value)) :
    playerHasMatch (hand ++ [c]) = true := by
  rw [playerHasMatch_eq_true_iff]
  have hn : getNormalCards (hand ++ [c]) = getNormalCards hand ++ [c] := by
    rw [getNormalCards_append]
    unfold getNormalCards
    rw [List.filter_cons, if_pos (by simp [hcs])]
    rfl
  rw [hn, List.map_append]
  intro hnd
  rw [List.nodup_append] at hnd
  exact hnd.2.2 hmem (by simp)

theorem modifyNth_set (l : List α) (p : Nat) (x : α) (f : α → α) :
    modifyNth (l.set p x) p f = l.set p (f x) := by
  induction l generalizing p with
  | nil => cases p <;> rfl
  | cons a t ih =>
    cases p with
    | zero => rfl
    | succ n =>
      simp only [List.set, modifyNth]
      rw [ih]

theorem getElem?_set_self_of_some {l : List α} {p : Nat} {a : α}
    (h : l[p]? = some a) (x : α) : (l.set p x)[p]? = some x := by
  have hlt : p < l.length := by
    by_contra hge
    rw [List.getElem?_eq_none (Nat.le_of_not_lt hge)] at h
    exact absurd h (by simp)
  exact List.getElem?_set_eq_of_lt _ hlt

theorem mem_of_getElem?_eq_some {l : List α} {p : Nat} {a : α}
    (h : l[p]? = some a) : a ∈ l := by
  rcases List.getElem?_eq_some.mp h with ⟨hlt, hget⟩
  exact hget ▸ List.getElem_mem hlt

/-! ## C6: draw-resolution match check -/

/-- When the player is live, short of seven uniques, and the drawn card is
no effect card, the post-match checks of `_apply_draw` change nothing. -/
theorem drawAftermath_noop (s : GameState) (p : Nat) (c : Card) (tt : Bool)
    (pl : PlayerState)
    (hget : s.players[p]? = some pl)
    (hd : pl.isDone = false)
    (h7 : ¬ (getNormalCards pl.hand).length = 7)
    (heff : EFFECTS.contains c.value = false) :
    drawAftermath s p c tt = s := by
  unfold drawAftermath
  rw [hget]
  simp only [Option.map_some', Option.getD_some, hd, Bool.not_false, Bool.true_and]
  rw [if_neg (by simpa using h7)]
  rw [if_neg (by simp only [heff]; decide)]

/-- **C6**: for a player whose hand (before the draw) has no duplicate
non-special values, whose cards are well formed (true in every reachable
state) and who is still short of seven uniques, drawing a card whose value
matches a value already in their non-special hand resolves as: with a
Second-Chance card in hand, exactly one Second-Chance card and one card of
the duplicated value are removed and the player stays in the round
(`isDone`, `status`, phase and queue untouched); without one, the player
is marked `status="Busted"`, `isDone` becomes true, their queued effects
are purged, nothing else changes (no seven-unique or effect check runs),
and the hand's round score is 0. -/
theorem applyDraw_duplicate_resolution
    (s : GameState) (p i : Nat) (tt : Bool) (pl : PlayerState) (c0 : Card)
    (deck2 : List Card)
    (hp : s.players[p]? = some pl)
    (hd : pl.isDone = false)
    (hnm : playerHasMatch pl.hand = false)
    (htake : takeCard s.deck i = some (c0, deck2))
    (hwdeck : ∀ d ∈ s.deck, wfCard d)
    (hwhand : ∀ d ∈ pl.hand, wfCard d)
    (hmem : c0.value ∈ (getNormalCards pl.hand).map (fun d => d.value))
    (h7 : (getNormalCards pl.hand).length ≠ 7) :
    (containsValue SECOND_CHANCE pl.hand = true →
      applyDraw s p i tt = some
        { s with deck := deck2,
                 players := s.players.set p
                   { pl with hand := removeValue c0.value
                                       (removeValue SECOND_CHANCE
                                         (pl.hand ++ [{ c0 with owner := some p }])) } }) ∧
    (containsValue SECOND_CHANCE pl.hand = false →
      applyDraw s p i tt = some
        { s with deck := deck2,
                 players := s.players.set p
                   { pl with hand := pl.hand ++ [{ c0 with owner := some p }],
                             status := some "Busted", isDone := true },
                 effectsToResolve :=
                   s.effectsToResolve.filter (fun e => e.owner ≠ some p) } ∧
      getPlayerHandScore (pl.hand ++ [{ c0 with owner := some p }]) = 0) := by
  have hc0mem : c0 ∈ s.deck := by
    unfold takeCard at htake
    split at htake
    · exact absurd htake (by simp)
    · have hpair := Option.some.inj htake
      have hc0 := congrArg Prod.fst hpair
      simp only at hc0
      rw [← hc0]
      exact s.deck.get_mem _ _
  have hwc0 : wfCard c0 := hwdeck c0 hc0mem
  obtain ⟨d, hdmem, hdv⟩ := List.mem_map.mp hmem
  have hdhand : d ∈ pl.hand := (List.mem_filter.mp hdmem).1
  have hdns : d.special = false := by
    have h2 := (List.mem_filter.mp hdmem).2
    simpa using h2
  have hvns : ¬ c0.value ∈ specialValues := by
    rw [← hdv]
    intro hmem2
    have h1 := (hwhand d hdhand).mpr hmem2
    rw [hdns] at h1
    exact absurd h1 (by decide)
  have hc0ns : c0.special = false := by
    cases hsp : c0.special
    · rfl
    · exact absurd (hwc0.mp hsp) hvns
  have hne_sc : ¬ c0.value = SECOND_CHANCE := by
    intro h
    exact hvns (by rw [h]; decide)
  have hne_fr : ¬ c0.value = FREEZE := by
    intro h
    exact hvns (by rw [h]; decide)
  have hne_f3 : ¬ c0.value = FLIP_THREE := by
    intro h
    exact hvns (by rw [h]; decide)
  have hmatch : playerHasMatch (pl.hand ++ [{ c0 with owner := some p }]) = true :=
    playerHasMatch_append hc0ns hmem
  have hscsame :
      containsValue SECOND_CHANCE (pl.hand ++ [{ c0 with owner := some p }]) =
        containsValue SECOND_CHANCE pl.hand := by
    rw [containsValue_append]
    have h1 : containsValue SECOND_CHANCE [{ c0 with owner := some p }] = false := by
      simp [containsValue, hne_sc]
    rw [h1, Bool.or_false]
  have heff : EFFECTS.contains c0.value = false := by
    show EFFECTS.elem c0.value = false
    rw [List.elem_eq_mem]
    apply decide_eq_false
    simp [EFFECTS, hne_fr, hne_f3]
  have hnormh1 :
      getNormalCards (pl.hand ++ [{ c0 with owner := some p }]) =
        getNormalCards pl.hand ++ [{ c0 with owner := some p }] := by
    rw [getNormalCards_append]
    unfold getNormalCards
    rw [List.filter_cons, if_pos (by simp [hc0ns])]
    rfl
  constructor
  · intro hsc
    have hsch1 :
        containsValue SECOND_CHANCE (pl.hand ++ [{ c0 with owner := some p }]) = true := by
      rw [hscsame]; exact hsc
    have hX : getNormalCards
          (removeValue SECOND_CHANCE (pl.hand ++ [{ c0 with owner := some p }])) =
        getNormalCards (pl.hand ++ [{ c0 with owner := some p }]) := by
      apply getNormalCards_removeValue_special
      intro d2 hd2 hv2
      rcases List.mem_append.mp hd2 with h | h
      · exact (hwhand d2 h).mpr (by rw [hv2]; decide)
      · rw [List.mem_singleton.mp h] at hv2
        exact absurd hv2 hne_sc
    have hcmemX : ({ c0 with owner := some p } : Card) ∈
        removeValue SECOND_CHANCE (pl.hand ++ [{ c0 with owner := some p }]) :=
      mem_removeValue_of_ne
        (List.mem_append_right _ (List.mem_singleton.mpr rfl)) hne_sc
    have hcontX : containsValue c0.value
        (removeValue SECOND_CHANCE (pl.hand ++ [{ c0 with owner := some p }])) = true := by
      rw [containsValue_iff]
      exact ⟨{ c0 with owner := some p }, hcmemX, rfl⟩
    have hallX : ∀ d2 ∈
        removeValue SECOND_CHANCE (pl.hand ++ [{ c0 with owner := some p }]),
        d2.value = c0.value → d2.special = false := by
      intro d2 hd2 hv2
      rcases List.mem_append.mp (mem_of_mem_removeValue hd2) with h | h
      · cases hsp : d2.special
        · rfl
        · exact absurd ((hwhand d2 h).mp hsp) (by rw [hv2]; exact hvns)
      · rw [List.mem_singleton.mp h]
        exact hc0ns
    have hlen : (getNormalCards (removeValue c0.value
          (removeValue SECOND_CHANCE (pl.hand ++ [{ c0 with owner := some p }])))).length =
        (getNormalCards pl.hand).length := by
      have h1 := getNormalCards_removeValue_normal hallX hcontX
      rw [hX, hnormh1] at h1
      simp only [List.length_append, List.length_singleton] at h1
      omega
    simp only [applyDraw, hp, htake, hd, Bool.false_eq_true, if_false, hmatch,
      if_true, hsch1, Option.some.injEq]
    exact drawAftermath_noop _ p _ tt _ (getElem?_set_self_of_some hp _) rfl
      (by rw [hlen]; exact h7) heff
  · intro hsc
    have hsch1 :
        containsValue SECOND_CHANCE (pl.hand ++ [{ c0 with owner := some p }]) = false := by
      rw [hscsame]; exact hsc
    refine ⟨?_, ?_⟩
    · simp only [applyDraw, hp, htake, hd, Bool.false_eq_true, if_false, hmatch,
        if_true, hsch1]
      unfold endRoundFor
      simp only [modifyNth_set]
    · unfold getPlayerHandScore
      simp [hmatch]

/-- Witness for `applyDraw_duplicate_resolution`: the Second-Chance branch
at `w6scState` and the bust branch at `w6bustState`. -/
theorem applyDraw_duplicate_resolution_witness :
    applyDraw w6scState 0 0 false =
      some (mkFlipState [] [mkPlayer [{ nC 3 with owner := some 0 }]]) ∧
    applyDraw w6bustState 0 0 false =
      some (mkFlipState []
        [{ hand := [nC 3, { nC 3 with owner := some 0 }], isDone := true,
           status := some "Busted", score := 0 }]) ∧
    getPlayerHandScore [nC 3, { nC 3 with owner := some 0 }] = 0 :=
  ⟨(applyDraw_duplicate_resolution w6scState 0 0 false (mkPlayer [scC, nC 3])
      (nC 3) [] rfl rfl (by decide) (by decide) (by decide) (by decide)
      (by decide) (by decide)).1 (by decide),
   (applyDraw_duplicate_resolution w6bustState 0 0 false (mkPlayer [nC 3])
      (nC 3) [] rfl rfl (by decide) (by decide) (by decide) (by decide)
      (by decide) (by decide)).2 (by decide)⟩

/-! ## C7: the forced flip-three chain -/

theorem takeCard_spec (deck : List Card) (i : Nat) (c : Card) (d2 : List Card)
    (h : takeCard deck i = some (c, d2)) : c ∈ deck ∧ d2.length + 1 = deck.length := by
  unfold takeCard at h
  split at h
  · exact absurd h (by simp)
  · rename_i hne
    have hpair := Option.some.inj h
    have hc := congrArg Prod.fst hpair
    have hd := congrArg Prod.snd hpair
    simp only at hc hd
    constructor
    · rw [← hc]
      exact deck.get_mem _ _
    · rw [← hd]
      have hlt : i % deck.length < deck.length := Nat.mod_lt _ (Nat.pos_of_ne_zero hne)
      rw [List.length_eraseIdx_of_lt hlt]
      omega

/-- A chained draw (`three_turn=True`) never touches the phase, the
pending effect, the turn player, or anything but one card's relocation:
the effect queue may grow or be purged but is never popped. -/
theorem drawAftermath_true_fields (s : GameState) (p : Nat) (c : Card) :
    (drawAftermath s p c true).phase = s.phase ∧
    (drawAftermath s p c true).pendingEffect = s.pendingEffect ∧
    (drawAftermath s p c true).pendingEffectOwner = s.pendingEffectOwner ∧
    (drawAftermath s p c true).turnPlayer = s.turnPlayer ∧
    (drawAftermath s p c true).deck = s.deck := by
  simp only [drawAftermath]
  split
  · exact ⟨rfl, rfl, rfl, rfl, rfl⟩
  · split
    · exact ⟨rfl, rfl, rfl, rfl, rfl⟩
    · exact ⟨rfl, rfl, rfl, rfl, rfl⟩

theorem applyDraw_chain_fields (s : GameState) (t i : Nat) (s1 : GameState)
    (h : applyDraw s t i true = some s1) :
    s1.phase = s.phase ∧ s1.pendingEffect = s.pendingEffect ∧
    s1.pendingEffectOwner = s.pendingEffectOwner ∧
    s1.turnPlayer = s.turnPlayer ∧ s1.deck.length + 1 = s.deck.length := by
  simp only [applyDraw] at h
  split at h
  · exact absurd h (by simp)
  · split at h
    · exact absurd h (by simp)
    · split at h
      · exact absurd h (by simp)
      · rename_i pl hp hd c0 deck2 htake
        split at h
        · split at h
          · obtain rfl := Option.some.inj h
            refine ⟨(drawAftermath_true_fields _ _ _).1,
              (drawAftermath_true_fields _ _ _).2.1,
              (drawAftermath_true_fields _ _ _).2.2.1,
              (drawAftermath_true_fields _ _ _).2.2.2.1, ?_⟩
            rw [(drawAftermath_true_fields _ _ _).2.2.2.2]
            exact (takeCard_spec _ _ _ _ htake).2
          · obtain rfl := Option.some.inj h
            exact ⟨rfl, rfl, rfl, rfl, (takeCard_spec _ _ _ _ htake).2⟩
        · obtain rfl := Option.some.inj h
          refine ⟨(drawAftermath_true_fields _ _ _).1,
            (drawAftermath_true_fields _ _ _).2.1,
            (drawAftermath_true_fields _ _ _).2.2.1,
            (drawAftermath_true_fields _ _ _).2.2.2.1, ?_⟩
          rw [(drawAftermath_true_fields _ _ _).2.2.2.2]
          exact (takeCard_spec _ _ _ _ htake).2

theorem getElem?_modifyNth_self {l : List α} {p : Nat} {a : α}
    (h : l[p]? = some a) (f : α → α) : (modifyNth l p f)[p]? = some (f a) := by
  induction l generalizing p with
  | nil => exact absurd h (by simp)
  | cons x t ih =>
    cases p with
    | zero =>
      simp only [List.getElem?_cons_zero] at h
      simp only [modifyNth, List.getElem?_cons_zero]
      rw [Option.some.inj h]
    | succ n =>
      simp only [List.getElem?_cons_succ] at h
      simp only [modifyNth, List.getElem?_cons_succ]
      exact ih h

/-- If a chained draw step's aftermath ends the target's round, the target
reached seven uniques (the aftermath's only way of ending a round). -/
theorem drawAftermath_done_reason (s : GameState) (t : Nat) (c : Card)
    (pl : PlayerState) (hp : s.players[t]? = some pl) (hd : pl.isDone = false)
    (hdone : playerIsDone (drawAftermath s t c true) t = true) :
    ∃ pl1, (drawAftermath s t c true).players[t]? = some pl1 ∧
      (pl1.status = some "Busted" ∨ (getNormalCards pl1.hand).length = 7) := by
  revert hdone
  simp only [drawAftermath, hp, Option.map_some', Option.getD_some, hd,
    Bool.not_false, Bool.true_and, if_true]
  split
  · rename_i h7
    intro _
    refine ⟨{ pl with isDone := true }, ?_, Or.inr ?_⟩
    · unfold endRoundFor
      exact getElem?_modifyNth_self hp _
    · simpa using h7
  · split
    · intro hdone
      simp only [playerIsDone, if_true, hp, Option.map_some', Option.getD_some,
        hd] at hdone
      exact Bool.noConfusion hdone
    · intro hdone
      simp only [playerIsDone, hp, Option.map_some', Option.getD_some, hd] at hdone
      exact Bool.noConfusion hdone

theorem applyDraw_done_reason (s : GameState) (t i : Nat) (s1 : GameState)
    (h : applyDraw s t i true = some s1) (hdone : playerIsDone s1 t = true) :
    ∃ pl1, s1.players[t]? = some pl1 ∧
      (pl1.status = some "Busted" ∨ (getNormalCards pl1.hand).length = 7) := by
  simp only [applyDraw] at h
  split at h
  · exact absurd h (by simp)
  · rename_i pl hp
    split at h
    · exact absurd h (by simp)
    · rename_i hd
      split at h
      · exact absurd h (by simp)
      · rename_i c0 deck2 htake
        have hd2 : pl.isDone = false := eq_false_of_ne_true hd
        split at h
        · split at h
          · obtain rfl := Option.some.inj h
            exact drawAftermath_done_reason _ t _ _
              (getElem?_set_self_of_some hp _) hd2 hdone
          · obtain rfl := Option.some.inj h
            refine ⟨{ pl with
                hand := pl.hand ++ [{ c0 with owner := some t }],
                status := some "Busted", isDone := true }, ?_, Or.inl rfl⟩
            unfold endRoundFor
            simp only [modifyNth_set]
            exact getElem?_set_self_of_some hp _
        · obtain rfl := Option.some.inj h
          exact drawAftermath_done_reason _ t _ _
            (getElem?_set_self_of_some hp _) hd2 hdone

/-- **C7**: resolving a Flip-Three against a target performs the chained
draw step at most 3 times, stopping early exactly when the target's round
ends — the chain result equals the explicit 3-step unrolling; a chained
draw never changes the phase, the pending effect, the turn player, and
removes exactly one card from the deck (effects drawn are queued, never
popped, during the chain); a chained draw that ends the target's round
does so by bust or seven uniques; and afterwards
`_start_next_effect_if_any` pops the next queued effect into
`PHASE_EFFECT_CHOOSE` or, with an empty queue, returns to `PHASE_FLIP`
with `activePlayer = turnPlayer`. -/
theorem flipThreeChain_spec :
    (∀ (s : GameState) (t : Nat) (cs : List Nat),
      applyFlipThreeChain s t cs =
        match applyDraw s t (cs.headD 0) true with
        | none => none
        | some s1 =>
          if playerIsDone s1 t then some (startNextEffect s1)
          else
            match applyDraw s1 t (cs.tail.headD 0) true with
            | none => none
            | some s2 =>
              if playerIsDone s2 t then some (startNextEffect s2)
              else (applyDraw s2 t (cs.tail.tail.headD 0) true).map startNextEffect) ∧
    (∀ (s : GameState) (t i : Nat) (s1 : GameState),
      applyDraw s t i true = some s1 →
        s1.phase = s.phase ∧ s1.pendingEffect = s.pendingEffect ∧
        s1.pendingEffectOwner = s.pendingEffectOwner ∧
        s1.turnPlayer = s.turnPlayer ∧ s1.deck.length + 1 = s.deck.length) ∧
    (∀ (s : GameState) (t i : Nat) (s1 : GameState),
      applyDraw s t i true = some s1 → playerIsDone s1 t = true →
        ∃ pl1, s1.players[t]? = some pl1 ∧
          (pl1.status = some "Busted" ∨ (getNormalCards pl1.hand).length = 7)) ∧
    (∀ s : GameState, s.effectsToResolve = [] →
      startNextEffect s =
        { s with pendingEffect := none, pendingEffectOwner := none,
                 phase := PHASE_FLIP, activePlayer := some s.turnPlayer }) ∧
    (∀ (s : GameState) (e : Card) (rest : List Card),
      s.effectsToResolve = e :: rest →
      startNextEffect s =
        { s with effectsToResolve := rest, pendingEffect := some e,
                 pendingEffectOwner := e.owner, phase := PHASE_EFFECT_CHOOSE,
                 activePlayer := e.owner }) := by
  refine ⟨?_, applyDraw_chain_fields, applyDraw_done_reason, ?_, ?_⟩
  · intro s t cs
    unfold applyFlipThreeChain
    simp only [chainSteps]
    cases h1 : applyDraw s t (cs.headD 0) true with
    | none => rfl
    | some s1 =>
      dsimp only
      by_cases hdone1 : playerIsDone s1 t = true
      · rw [if_pos hdone1, if_pos hdone1]
        rfl
      · rw [if_neg hdone1, if_neg hdone1]
        cases h2 : applyDraw s1 t (cs.tail.headD 0) true with
        | none => rfl
        | some s2 =>
          dsimp only
          by_cases hdone2 : playerIsDone s2 t = true
          · rw [if_pos hdone2, if_pos hdone2]
            rfl
          · rw [if_neg hdone2, if_neg hdone2]
            cases h3 : applyDraw s2 t (cs.tail.tail.headD 0) true with
            | none => rfl
            | some s3 =>
              dsimp only
              by_cases hdone3 : playerIsDone s3 t = true
              · rw [if_pos hdone3]
              · rw [if_neg hdone3]
  · intro s hq
    unfold startNextEffect
    rw [hq]
  · intro s e rest hq
    unfold startNextEffect
    rw [hq]

/-- Witness for `flipThreeChain_spec`: the field-preservation part at a
concrete chained draw, and both queue cases of the dispatch. -/
theorem flipThreeChain_spec_witness :
    ((mkFlipState [nC 6] [mkPlayer [{ nC 5 with owner := some 0 }]]).phase =
        w7state.phase ∧
      (mkFlipState [nC 6] [mkPlayer [{ nC 5 with owner := some 0 }]]).deck.length + 1 =
        w7state.deck.length) ∧
    startNextEffect (mkFlipState [] [mkPlayer []]) =
      { mkFlipState [] [mkPlayer []] with
        pendingEffect := none, pendingEffectOwner := none,
        phase := PHASE_FLIP, activePlayer := some 0 } ∧
    startNextEffect w7queueState =
      { w7queueState with
        effectsToResolve := [], pendingEffect := some { frC with owner := some 1 },
        pendingEffectOwner := some 1, phase := PHASE_EFFECT_CHOOSE,
        activePlayer := some 1 } :=
  ⟨⟨(flipThreeChain_spec.2.1 w7state 0 0 _ (by decide)).1,
    (flipThreeChain_spec.2.1 w7state 0 0 _ (by decide)).2.2.2.2⟩,
   flipThreeChain_spec.2.2.2.1 (mkFlipState [] [mkPlayer []]) rfl,
   flipThreeChain_spec.2.2.2.2 w7queueState { frC with owner := some 1 } [] rfl⟩

/-! ## C1: card conservation -/

theorem sum_map_set {l : List α} {p : Nat} {a : α} (f : α → Nat)
    (h : l[p]? = some a) (x : α) :
    ((l.set p x).map f).sum + f a = (l.map f).sum + f x := by
  induction l generalizing p with
  | nil => exact absurd h (by simp)
  | cons y t ih =>
    cases p with
    | zero =>
      simp only [List.getElem?_cons_zero] at h
      rw [Option.some.inj h]
      simp only [List.set, List.map_cons, List.sum_cons]
      omega
    | succ n =>
      simp only [List.getElem?_cons_succ] at h
      simp only [List.set, List.map_cons, List.sum_cons]
      have := ih h
      omega

theorem sum_map_modifyNth {l : List α} {p : Nat} (f : α → Nat) (g : α → α)
    (hg : ∀ a, f (g a) = f a) :
    ((modifyNth l p g).map f).sum = (l.map f).sum := by
  induction l generalizing p with
  | nil => rfl
  | cons y t ih =>
    cases p with
    | zero => simp only [modifyNth, List.map_cons, List.sum_cons, hg]
    | succ n =>
      simp only [modifyNth, List.map_cons, List.sum_cons, ih]

theorem totalCards_endRoundFor (s : GameState) (p : Nat) :
    totalCards (endRoundFor s p) = totalCards s := by
  unfold totalCards endRoundFor
  simp only
  have h := @sum_map_modifyNth PlayerState s.players p (fun pl => pl.hand.length)
    (fun pl => { pl with isDone := true }) (fun a => rfl)
  omega

theorem totalCards_startNextEffect (s : GameState) :
    totalCards (startNextEffect s) = totalCards s := by
  unfold startNextEffect
  split <;> rfl

theorem totalCards_drawAftermath (s : GameState) (p : Nat) (c : Card) (tt : Bool) :
    totalCards (drawAftermath s p c tt) = totalCards s := by
  simp only [drawAftermath]
  split
  · exact totalCards_endRoundFor s p
  · split
    · split
      · rfl
      · exact totalCards_startNextEffect _
    · rfl

/-- A drawn card that completes a duplicate in a previously
duplicate-free hand is itself a normal card matching a held value. -/
theorem match_append_cases {hand : List Card} {c : Card}
    (hm : playerHasMatch (hand ++ [c]) = true)
    (hnm : playerHasMatch hand = false) :
    c.special = false ∧ c.value ∈ (getNormalCards hand).map (fun d => d.value) := by
  have hns : c.special = false := by
    cases hsp : c.special
    · rfl
    · exfalso
      have hkeep : getNormalCards (hand ++ [c]) = getNormalCards hand := by
        rw [getNormalCards_append]
        unfold getNormalCards
        rw [List.filter_cons, if_neg (by simp [hsp])]
        simp
      rw [playerHasMatch_eq_true_iff, hkeep] at hm
      exact hm ((playerHasMatch_eq_false_iff hand).mp hnm)
  refine ⟨hns, ?_⟩
  by_contra hmem
  have hnormh1 : getNormalCards (hand ++ [c]) = getNormalCards hand ++ [c] := by
    rw [getNormalCards_append]
    unfold getNormalCards
    rw [List.filter_cons, if_pos (by simp [hns])]
    rfl
  rw [playerHasMatch_eq_true_iff, hnormh1, List.map_append] at hm
  apply hm
  rw [List.nodup_append]
  refine ⟨(playerHasMatch_eq_false_iff hand).mp hnm, by simp, ?_⟩
  intro v hv hv2
  simp only [List.map_cons, List.map_nil, List.mem_singleton] at hv2
  rw [hv2] at hv
  exact hmem hv

/-- Removing one card whose value occurs only on normal cards erases that
value once from the normal-card value list. -/
theorem vals_normals_removeValue {v : String} {l : List Card}
    (hall : ∀ d ∈ l, d.value = v → d.special = false)
    (hc : containsValue v l = true) :
    (getNormalCards (removeValue v l)).map (fun c => c.value) =
      ((getNormalCards l).map (fun c => c.value)).erase v := by
  induction l with
  | nil => simp [containsValue] at hc
  | cons c t ih =>
    have ht : ∀ d ∈ t, d.value = v → d.special = false :=
      fun d hd => hall d (List.mem_cons_of_mem _ hd)
    rw [removeValue]
    by_cases hv : c.value = v
    · rw [if_pos hv]
      have hns := hall c (List.mem_cons_self _ _) hv
      unfold getNormalCards
      rw [List.filter_cons, if_pos (by simp [hns])]
      simp only [List.map_cons]
      rw [hv, List.erase_cons_head]
    · rw [containsValue, List.any_cons, Bool.or_eq_true] at hc
      rcases hc with hc | hc
      · exact absurd (of_decide_eq_true hc) hv
      · rw [if_neg hv]
        unfold getNormalCards at ih ⊢
        rw [List.filter_cons, List.filter_cons]
        split
        · simp only [List.map_cons]
          rw [List.erase_cons_tail (by simp [hv]), ih ht hc]
        · exact ih ht hc

/-- One draw moves one card from the deck to the hand; the total is
preserved except that a firing Second-Chance consumption removes exactly
two cards from play. -/
theorem totalCards_applyDraw (s : GameState) (p i : Nat) (tt : Bool)
    (s' : GameState)
    (hw : ∀ d ∈ s.deck, wfCard d)
    (hnm : ∀ pl, s.players[p]? = some pl → pl.isDone = false →
      playerHasMatch pl.hand = false)
    (h : applyDraw s p i tt = some s') :
    totalCards s' + (if scConsumed s p i then 2 else 0) = totalCards s := by
  simp only [applyDraw] at h
  split at h
  · exact absurd h (by simp)
  · rename_i pl hp
    split at h
    · exact absurd h (by simp)
    · rename_i hdne
      have hd : pl.isDone = false := eq_false_of_ne_true hdne
      split at h
      · exact absurd h (by simp)
      · rename_i c0 deck2 htake
        have hnm2 := hnm pl hp hd
        obtain ⟨hc0mem, hlen⟩ := takeCard_spec _ _ _ _ htake
        have hwc0 : wfCard c0 := hw c0 hc0mem
        have hscdef : scConsumed s p i =
            (playerHasMatch (pl.hand ++ [{ c0 with owner := some p }]) &&
              containsValue SECOND_CHANCE
                (pl.hand ++ [{ c0 with owner := some p }])) := by
          simp only [scConsumed, hp, htake]
        have happlen : (pl.hand ++ [{ c0 with owner := some p }]).length =
            pl.hand.length + 1 := by simp
        split at h
        · rename_i hm
          obtain ⟨hns, hmemv⟩ := match_append_cases hm hnm2
          have hvns : ¬ c0.value ∈ specialValues := by
            intro hmem2
            have h1 := hwc0.mpr hmem2
            rw [show c0.special = false from hns] at h1
            exact absurd h1 (by decide)
          have hne_sc : ¬ c0.value = SECOND_CHANCE := by
            intro hv
            exact hvns (by rw [hv]; decide)
          split at h
          · rename_i hsc
            obtain rfl := Option.some.inj h
            rw [totalCards_drawAftermath, hscdef, hm, hsc]
            simp only [Bool.and_self]
            rw [if_true]
            have l1 := removeValue_length SECOND_CHANCE
              (pl.hand ++ [{ c0 with owner := some p }]) hsc
            have hcmem1 : ({ c0 with owner := some p } : Card) ∈
                removeValue SECOND_CHANCE
                  (pl.hand ++ [{ c0 with owner := some p }]) :=
              mem_removeValue_of_ne
                (List.mem_append_right _ (List.mem_singleton.mpr rfl)) hne_sc
            have hcont1 : containsValue c0.value
                (removeValue SECOND_CHANCE
                  (pl.hand ++ [{ c0 with owner := some p }])) = true :=
              (containsValue_iff _ _).mpr ⟨_, hcmem1, rfl⟩
            have l2 := removeValue_length c0.value
              (removeValue SECOND_CHANCE
                (pl.hand ++ [{ c0 with owner := some p }])) hcont1
            have hsum2 := sum_map_set (fun q => q.hand.length) hp
              { pl with
                hand := removeValue c0.value
                          (removeValue SECOND_CHANCE
                            (pl.hand ++ [{ c0 with owner := some p }])) }
            dsimp only at hsum2
            unfold totalCards
            simp only
            omega
          · rename_i hsc
            obtain rfl := Option.some.inj h
            rw [totalCards_endRoundFor, hscdef, hm,
              eq_false_of_ne_true hsc]
            simp only [Bool.and_false]
            rw [if_neg (by decide)]
            have hsum2 := sum_map_set (fun q => q.hand.length) hp
              { pl with hand := pl.hand ++ [{ c0 with owner := some p }],
                        status := some "Busted" }
            dsimp only at hsum2
            unfold totalCards
            simp only
            omega
        · rename_i hm
          obtain rfl := Option.some.inj h
          rw [totalCards_drawAftermath, hscdef, eq_false_of_ne_true hm]
          simp only [Bool.false_and]
          rw [if_neg (by decide)]
          have hsum2 := sum_map_set (fun q => q.hand.length) hp
            { pl with hand := pl.hand ++ [{ c0 with owner := some p }] }
          dsimp only at hsum2
          unfold totalCards
          simp only
          omega

theorem mem_modifyNth_cases {l : List α} {p : Nat} {f : α → α} {q : α}
    (h : q ∈ modifyNth l p f) : q ∈ l ∨ ∃ a ∈ l, q = f a := by
  induction l generalizing p with
  | nil => exact absurd h (by simp [modifyNth])
  | cons x t ih =>
    cases p with
    | zero =>
      rcases List.mem_cons.mp h with h | h
      · exact Or.inr ⟨x, List.mem_cons_self _ _, h⟩
      · exact Or.inl (List.mem_cons_of_mem _ h)
    | succ n =>
      rcases List.mem_cons.mp h with h | h
      · exact Or.inl (h ▸ List.mem_cons_self _ _)
      · rcases ih h with h2 | ⟨a, ha, rfl⟩
        · exact Or.inl (List.mem_cons_of_mem _ h2)
        · exact Or.inr ⟨a, List.mem_cons_of_mem _ ha, rfl⟩

theorem takeCard_subset (deck : List Card) (i : Nat) (c : Card) (d2 : List Card)
    (h : takeCard deck i = some (c, d2)) : ∀ d ∈ d2, d ∈ deck := by
  unfold takeCard at h
  split at h
  · exact absurd h (by simp)
  · have hd := congrArg Prod.snd (Option.some.inj h)
    simp only at hd
    intro d hdm
    rw [← hd] at hdm
    exact (List.eraseIdx_sublist _ _).subset hdm

theorem InvCards_startNextEffect {s : GameState} (hI : InvCards s) :
    InvCards (startNextEffect s) := by
  unfold startNextEffect
  split
  · exact hI
  · exact hI

theorem InvCards_endRoundFor {s : GameState} (p : Nat) (hI : InvCards s) :
    InvCards (endRoundFor s p) := by
  obtain ⟨hdeck, hpl⟩ := hI
  refine ⟨hdeck, ?_⟩
  intro q hq
  rcases mem_modifyNth_cases hq with hq2 | ⟨a, ha, rfl⟩
  · exact hpl q hq2
  · refine ⟨(hpl a ha).1, ?_⟩
    intro hfd
    exact absurd hfd (by simp)

theorem InvCards_drawAftermath {s : GameState} (p : Nat) (c : Card) (tt : Bool)
    (hI : InvCards s) : InvCards (drawAftermath s p c tt) := by
  simp only [drawAftermath]
  split
  · exact InvCards_endRoundFor p hI
  · split
    · split
      · exact hI
      · exact InvCards_startNextEffect hI
    · exact hI

/-- Consuming the Second-Chance card and the freshly completed duplicate
restores a duplicate-free hand. -/
theorem playerHasMatch_scConsume {hand : List Card} {c : Card}
    (hwhand : ∀ d ∈ hand, wfCard d) (hwc : wfCard c)
    (hnm : playerHasMatch hand = false)
    (hm : playerHasMatch (hand ++ [c]) = true) :
    playerHasMatch
      (removeValue c.value (removeValue SECOND_CHANCE (hand ++ [c]))) = false := by
  obtain ⟨hns, hmemv⟩ := match_append_cases hm hnm
  obtain ⟨d, hdmem, hdv⟩ := List.mem_map.mp hmemv
  have hdhand : d ∈ hand := (List.mem_filter.mp hdmem).1
  have hdns : d.special = false := by
    have h2 := (List.mem_filter.mp hdmem).2
    simpa using h2
  have hvns : ¬ c.value ∈ specialValues := by
    rw [← hdv]
    intro hmem2
    have h1 := (hwhand d hdhand).mpr hmem2
    rw [hdns] at h1
    exact absurd h1 (by decide)
  have hne_sc : ¬ c.value = SECOND_CHANCE := by
    intro hv
    exact hvns (by rw [hv]; decide)
  have hX : getNormalCards (removeValue SECOND_CHANCE (hand ++ [c])) =
      getNormalCards (hand ++ [c]) := by
    apply getNormalCards_removeValue_special
    intro d2 hd2 hv2
    rcases List.mem_append.mp hd2 with h2 | h2
    · exact (hwhand d2 h2).mpr (by rw [hv2]; decide)
    · rw [List.mem_singleton.mp h2] at hv2
      exact absurd hv2 hne_sc
  have hcmemX : c ∈ removeValue SECOND_CHANCE (hand ++ [c]) :=
    mem_removeValue_of_ne
      (List.mem_append_right _ (List.mem_singleton.mpr rfl)) hne_sc
  have hcontX : containsValue c.value
      (removeValue SECOND_CHANCE (hand ++ [c])) = true :=
    (containsValue_iff _ _).mpr ⟨c, hcmemX, rfl⟩
  have hallX : ∀ d2 ∈ removeValue SECOND_CHANCE (hand ++ [c]),
      d2.value = c.value → d2.special = false := by
    intro d2 hd2 hv2
    rcases List.mem_append.mp (mem_of_mem_removeValue hd2) with h2 | h2
    · cases hsp : d2.special
      · rfl
      · exact absurd ((hwhand d2 h2).mp hsp) (by rw [hv2]; exact hvns)
    · rw [List.mem_singleton.mp h2]
      exact hns
  have hvals := vals_normals_removeValue hallX hcontX
  rw [hX] at hvals
  have hnormh1 : getNormalCards (hand ++ [c]) = getNormalCards hand ++ [c] := by
    rw [getNormalCards_append]
    unfold getNormalCards
    rw [List.filter_cons, if_pos (by simp [hns])]
    rfl
  rw [hnormh1, List.map_append] at hvals
  simp only [List.map_cons, List.map_nil] at hvals
  rw [List.erase_append_left _ hmemv] at hvals
  rw [playerHasMatch_eq_false_iff, hvals]
  have hwn : ((getNormalCards hand).map (fun d => d.value)).Nodup :=
    (playerHasMatch_eq_false_iff hand).mp hnm
  rw [List.nodup_append]
  refine ⟨hwn.erase _, by simp, ?_⟩
  intro v hv hv2
  simp only [List.mem_singleton] at hv2
  rw [hv2] at hv
  exact ((hwn.mem_erase_iff).mp hv).1 rfl

theorem applyDraw_preserves_InvCards (s : GameState) (p i : Nat) (tt : Bool)
    (s' : GameState) (hI : InvCards s) (h : applyDraw s p i tt = some s') :
    InvCards s' := by
  obtain ⟨hdeck, hplayers⟩ := hI
  simp only [applyDraw] at h
  split at h
  · exact absurd h (by simp)
  · rename_i pl hp
    split at h
    · exact absurd h (by simp)
    · rename_i hdne
      have hd : pl.isDone = false := eq_false_of_ne_true hdne
      split at h
      · exact absurd h (by simp)
      · rename_i c0 deck2 htake
        have hplmem : pl ∈ s.players := mem_of_getElem?_eq_some hp
        have hwhand := (hplayers pl hplmem).1
        have hnm2 := (hplayers pl hplmem).2 hd
        obtain ⟨hc0mem, -⟩ := takeCard_spec _ _ _ _ htake
        have hwc0 : wfCard c0 := hdeck c0 hc0mem
        have hdeck2 : ∀ d ∈ deck2, wfCard d := fun d hd2 =>
          hdeck d (takeCard_subset _ _ _ _ htake d hd2)
        have hwc : wfCard ({ c0 with owner := some p } : Card) := hwc0
        have hwh1 : ∀ d ∈ pl.hand ++ [{ c0 with owner := some p }], wfCard d := by
          intro d hd2
          rcases List.mem_append.mp hd2 with h2 | h2
          · exact hwhand d h2
          · rw [List.mem_singleton.mp h2]
            exact hwc
        split at h
        · rename_i hm
          split at h
          · rename_i hsc
            obtain rfl := Option.some.inj h
            apply InvCards_drawAftermath
            refine ⟨hdeck2, ?_⟩
            intro q hq
            rcases List.mem_or_eq_of_mem_set hq with hq2 | rfl
            · exact hplayers q hq2
            · refine ⟨?_, ?_⟩
              · intro d hd3
                exact hwh1 d
                  (mem_of_mem_removeValue (mem_of_mem_removeValue hd3))
              · intro _
                exact playerHasMatch_scConsume hwhand hwc hnm2 hm
          · rename_i hsc
            obtain rfl := Option.some.inj h
            unfold endRoundFor
            refine ⟨hdeck2, ?_⟩
            intro q hq
            simp only [modifyNth_set] at hq
            rcases List.mem_or_eq_of_mem_set hq with hq2 | rfl
            · exact hplayers q hq2
            · refine ⟨hwh1, ?_⟩
              intro hfd
              exact absurd hfd (by simp)
        · rename_i hm
          obtain rfl := Option.some.inj h
          apply InvCards_drawAftermath
          refine ⟨hdeck2, ?_⟩
          intro q hq
          rcases List.mem_or_eq_of_mem_set hq with hq2 | rfl
          · exact hplayers q hq2
          · exact ⟨hwh1, fun _ => eq_false_of_ne_true hm⟩

theorem totalCards_chainSteps (fuel : Nat) (s : GameState) (t : Nat)
    (cs : List Nat) (s' : GameState) (hI : InvCards s)
    (h : chainSteps fuel s t cs = some s') :
    ∃ k, totalCards s' + 2 * k = totalCards s := by
  induction fuel generalizing s cs with
  | zero =>
    simp only [chainSteps] at h
    obtain rfl := Option.some.inj h
    exact ⟨0, by omega⟩
  | succ n ih =>
    simp only [chainSteps] at h
    split at h
    · exact absurd h (by simp)
    · rename_i s1 hdraw
      have hIs1 := applyDraw_preserves_InvCards _ _ _ _ _ hI hdraw
      have htot := totalCards_applyDraw _ _ _ _ _ hI.1
        (fun pl hp hd => (hI.2 pl (mem_of_getElem?_eq_some hp)).2 hd) hdraw
      split at h
      · obtain rfl := Option.some.inj h
        refine ⟨if scConsumed s t (cs.headD 0) then 1 else 0, ?_⟩
        by_cases hscc : scConsumed s t (cs.headD 0) = true
        · rw [if_pos hscc] at htot ⊢
          omega
        · rw [if_neg hscc] at htot ⊢
          omega
      · obtain ⟨k, hk⟩ := ih s1 cs.tail hIs1 h
        refine ⟨k + (if scConsumed s t (cs.headD 0) then 1 else 0), ?_⟩
        by_cases hscc : scConsumed s t (cs.headD 0) = true
        · rw [if_pos hscc] at htot ⊢
          omega
        · rw [if_neg hscc] at htot ⊢
          omega

theorem totalCards_applyAction (s : GameState) (a : Action) (cs : List Nat)
    (s' : GameState) (hI : InvCards s) (h : applyAction s a cs = Except.ok s') :
    ∃ k, totalCards s' + 2 * k = totalCards s := by
  simp only [applyAction] at h
  split at h
  · split at h
    · obtain rfl := Except.ok.inj h
      refine ⟨0, ?_⟩
      rw [totalCards_endRoundFor]
      unfold totalCards
      have hm := @sum_map_modifyNth PlayerState s.players a.acting_player
        (fun q => q.hand.length) (fun q => { q with status := some "Passed" })
        (fun _ => rfl)
      simp only
      omega
    · split at h
      · rename_i s2 hdraw
        obtain rfl := Except.ok.inj h
        have htot := totalCards_applyDraw _ _ _ _ _ hI.1
          (fun pl hp hd => (hI.2 pl (mem_of_getElem?_eq_some hp)).2 hd) hdraw
        refine ⟨if scConsumed s a.acting_player (cs.headD 0) then 1 else 0, ?_⟩
        by_cases hscc : scConsumed s a.acting_player (cs.headD 0) = true
        · rw [if_pos hscc] at htot ⊢
          omega
        · rw [if_neg hscc] at htot ⊢
          omega
      · exact absurd h (by simp)
    · exact absurd h (by simp)
  · split at h
    · split at h
      · exact absurd h (by simp)
      · split at h
        · exact absurd h (by simp)
        · split at h
          · exact absurd h (by simp)
          · split at h
            · exact absurd h (by simp)
            · rename_i t ht
              split at h
              · exact absurd h (by simp)
              · rename_i pe hpe
                split at h
                · obtain rfl := Except.ok.inj h
                  refine ⟨0, ?_⟩
                  rw [totalCards_startNextEffect, totalCards_endRoundFor]
                  unfold totalCards
                  have hm := @sum_map_modifyNth PlayerState s.players t
                    (fun q => q.hand.length)
                    (fun q => { q with status := some "Frozen" }) (fun _ => rfl)
                  simp only
                  omega
                · split at h
                  · split at h
                    · rename_i s2 hchain
                      obtain rfl := Except.ok.inj h
                      unfold applyFlipThreeChain at hchain
                      rcases Option.map_eq_some'.mp hchain with ⟨s3, h3, rfl⟩
                      obtain ⟨k, hk⟩ := totalCards_chainSteps 3 s t cs s3 hI h3
                      refine ⟨k, ?_⟩
                      rw [totalCards_startNextEffect]
                      exact hk
                    · exact absurd h (by simp)
                  · obtain rfl := Except.ok.inj h
                    refine ⟨0, ?_⟩
                    rw [totalCards_startNextEffect]
                    omega
    · exact absurd h (by simp)

theorem initState_facts (n : Nat) :
    totalCards (initState n) = 94 ∧ InvCards (initState n) := by
  constructor
  · unfold totalCards initState
    simp only
    have h1 : newDeck.length = 94 := by decide
    have h2 : (((List.range n).map (fun _ =>
        ({ hand := [], isDone := false, status := none, score := 0 } :
          PlayerState))).map (fun pl => pl.hand.length)).sum = 0 := by
      apply List.sum_eq_zero
      intro x hx
      rcases List.mem_map.mp hx with ⟨q, hq, rfl⟩
      rcases List.mem_map.mp hq with ⟨m, hm, rfl⟩
      rfl
    omega
  · constructor
    · intro d hd
      have hwf : ∀ d ∈ newDeck, wfCard d := by decide
      exact hwf d hd
    · intro pl hpl
      rcases List.mem_map.mp hpl with ⟨m, hm, rfl⟩
      exact ⟨fun d hd => absurd hd (List.not_mem_nil d), fun _ => rfl⟩

/-- **C1 counterexample**: a reachable three-draw trace of a one-player
game (draw a Second Chance, a 3, then the matching 3, firing the
Second-Chance consumption) ends with `deckSize + Σ handSizes = 92`, while
a fresh deck has 94 cards — the Second-Chance consumption removed two
cards from play without returning them to the deck. -/
theorem card_conservation_cex :
    c1trace.map totalCards = Except.ok 92 ∧ newDeck.length = 94 := by
  constructor
  · rfl
  · decide

/-- **C1** (amended): within a round, the engine's operations preserve
`deckSize + Σ handSizes` *except* for the Second-Chance consumption: a
draw (from a well-formed deck, by a live player with a duplicate-free
hand — both reachability invariants) removes 2 cards from play exactly
when the consumption fires and otherwise preserves the total; every
`apply_action` (from a state satisfying the card invariant) decreases the
total by twice the number of Second-Chance consumptions it triggers; a
fresh-round state starts at the fixed total 94 and satisfies the
invariant. -/
theorem card_conservation_amended :
    (∀ (s : GameState) (p i : Nat) (tt : Bool) (s' : GameState),
      (∀ d ∈ s.deck, wfCard d) →
      (∀ pl, s.players[p]? = some pl → pl.isDone = false →
        playerHasMatch pl.hand = false) →
      applyDraw s p i tt = some s' →
      totalCards s' + (if scConsumed s p i then 2 else 0) = totalCards s) ∧
    (∀ (s : GameState) (a : Action) (cs : List Nat) (s' : GameState),
      InvCards s → applyAction s a cs = Except.ok s' →
      ∃ k, totalCards s' + 2 * k = totalCards s) ∧
    (∀ n : Nat, totalCards (initState n) = 94 ∧ InvCards (initState n)) :=
  ⟨totalCards_applyDraw, totalCards_applyAction, initState_facts⟩

/-- Witness for `card_conservation_amended`: the Second-Chance consumption
draw at `w1state` (total drops from 3 to 1) and the corresponding DRAW
action. -/
theorem card_conservation_witness :
    totalCards w1result + (if scConsumed w1state 0 0 then 2 else 0) =
      totalCards w1state ∧
    ∃ k, totalCards w1actionResult + 2 * k = totalCards w1state :=
  ⟨card_conservation_amended.1 w1state 0 0 false w1result (by decide) (by decide)
      rfl,
   card_conservation_amended.2.1 w1state drawA [0] w1actionResult (by decide) rfl⟩

end Flip7
